import Mathlib

/-!
Verification of the type-definition cross-compiler (the TypeScript-to-Rust
type-generation pipeline in `type-gen`).  The definitions below are a shallow
embedding of the pipeline's source: TypeScript/ts-morph values are modelled by
explicit inductive types, JavaScript strings by Lean `String`/`List Char`,
JavaScript `Map`s by insertion-ordered association lists, mutable module state
by explicit state passing, and `throw` by `Except String`.
-/

namespace TypeGen

/-! ## JavaScript string primitives -/

/-- JS `String.prototype.trim` (ASCII whitespace; the realistic inputs of this
pipeline contain only spaces and line breaks). -/
def trimChars (l : List Char) : List Char :=
  ((l.dropWhile Char.isWhitespace).reverse.dropWhile Char.isWhitespace).reverse

def jsTrim (s : String) : String := ⟨trimChars s.data⟩

/-- JS `String.prototype.split` with a single-character separator. -/
def splitChar (sep : Char) : List Char → List (List Char)
  | [] => [[]]
  | c :: rest =>
    if c = sep then [] :: splitChar sep rest
    else
      match splitChar sep rest with
      | [] => [[c]]
      | h :: t => (c :: h) :: t

/-- JS `String.prototype.includes`: substring containment, scanning positions
left to right. -/
def containsSub (l sub : List Char) : Bool :=
  if sub.isPrefixOf l then true
  else
    match l with
    | [] => false
    | _ :: t => containsSub t sub

def jsIncludes (s sub : String) : Bool := containsSub s.data sub.data

def jsStartsWith (s p : String) : Bool := p.data.isPrefixOf s.data

def jsEndsWith (s p : String) : Bool := p.data.reverse.isPrefixOf s.data.reverse

/-- One attempted match of the regex `import\([^)]*\)\.` at the head of the
input: `import(` then a maximal run of non-`)` characters, then `).`.
Returns the remainder after the match. -/
def matchImportAt (l : List Char) : Option (List Char) :=
  if "import(".data.isPrefixOf l then
    match (l.drop 7).dropWhile (fun c => c ≠ ')') with
    | ')' :: '.' :: rest => some rest
    | _ => none
  else none

/-- JS `s.replace(/import\([^)]*\)\./g, '')`: global leftmost scan, empty
replacement, matches are not rescanned.  The fuel argument is the input
length, which bounds the number of scan steps (every step consumes at least
one character). -/
def removeImportAux : Nat → List Char → List Char
  | 0, l => l
  | _ + 1, [] => []
  | fuel + 1, c :: rest =>
    match matchImportAt (c :: rest) with
    | some r => removeImportAux fuel r
    | none => c :: removeImportAux fuel rest

def removeImportPaths (s : String) : String :=
  ⟨removeImportAux s.data.length s.data⟩

/-- JS `cleanedName.match(/import\([^)]*\)\.(.+)$/)`, returning the capture
(the text after `).` up to the end).  The regex engine tries each start
position left to right; at a given position `[^)]*` necessarily stops at the
first `)`, and `(.+)$` requires a nonempty remainder without line
terminators. -/
def matchImportTail : List Char → Option (List Char)
  | [] => none
  | c :: rest =>
    match
      (if "import(".data.isPrefixOf (c :: rest) then
        match ((c :: rest).drop 7).dropWhile (fun x => x ≠ ')') with
        | ')' :: '.' :: tail =>
          if tail ≠ [] ∧ tail.all (fun x => x ≠ '\n' ∧ x ≠ '\r') then some tail
          else none
        | _ => none
      else none) with
    | some tail => some tail
    | none => matchImportTail rest

/-! ## Decimal rendering (JS `Number.prototype.toString` for naturals) -/

def decCharsAux : Nat → Nat → List Char
  | 0, _ => []
  | fuel + 1, n =>
    if n < 10 then [Char.ofNat (48 + n)]
    else decCharsAux fuel (n / 10) ++ [Char.ofNat (48 + n % 10)]

def decChars (n : Nat) : List Char := decCharsAux (n + 1) n

def decString (n : Nat) : String := ⟨decChars n⟩

/-- JS `String.prototype.padStart(3, '0')`. -/
def padStart3 (l : List Char) : List Char :=
  List.replicate (3 - l.length) '0' ++ l

/-! ## Case conversion helpers from the source -/

/-- `convertToSnakeCase`: `str.replace(/([A-Z])/g, "_$1").toLowerCase().replace(/^_/, "")`. -/
def convertToSnakeCase (s : String) : String :=
  let expanded := s.data.flatMap (fun c => if c.isUpper then ['_', c] else [c])
  let lowered := expanded.map Char.toLower
  match lowered with
  | '_' :: t => ⟨t⟩
  | l => ⟨l⟩

/-- `convertToPascalCase`: `str.charAt(0).toUpperCase() + str.slice(1)`. -/
def convertToPascalCase (s : String) : String :=
  match s.data with
  | [] => ""
  | c :: rest => ⟨c.toUpper :: rest⟩

/-- The test `/^[A-Z][a-z]*([A-Z][a-z]*)*$/.test(str)`.  A string matches that
regex exactly when it is a nonempty run of ASCII letters whose first letter is
uppercase: such a string decomposes into blocks at each uppercase letter. -/
def pascalTest (s : String) : Bool :=
  match s.data with
  | [] => false
  | c :: rest => c.isUpper && (c :: rest).all Char.isAlpha

/-- `str.replace(/([a-z])([A-Z])/g, '$1 $2')`: global two-character matches,
the scan resuming after each replaced pair. -/
def insertCamelSpaces : List Char → List Char
  | c1 :: c2 :: rest =>
    if c1.isLower ∧ c2.isUpper then c1 :: ' ' :: c2 :: insertCamelSpaces rest
    else c1 :: insertCamelSpaces (c2 :: rest)
  | l => l

def sepClass (c : Char) : Bool := c.isWhitespace || c = '_' || c = '-'

/-- JS `split(/[\s_-]+/)`: runs of separators are single boundaries; leading or
trailing separators contribute empty pieces.  Fueled by the input length (each
step consumes at least one character). -/
def splitRunsAux : Nat → List Char → List (List Char)
  | 0, _ => [[]]
  | _ + 1, [] => [[]]
  | fuel + 1, c :: rest =>
    if sepClass c then [] :: splitRunsAux fuel (rest.dropWhile sepClass)
    else
      match splitRunsAux fuel rest with
      | [] => [[c]]
      | h :: t => (c :: h) :: t

/-- `word.charAt(0).toUpperCase() + word.slice(1).toLowerCase()` (empty words
stay empty). -/
def titleWord : List Char → List Char
  | [] => []
  | c :: rest => c.toUpper :: rest.map Char.toLower

/-- `toPascalCase` from the source (used by enum synthesis). -/
def toPascalCase (s : String) : String :=
  if pascalTest s then s
  else
    let spaced := insertCamelSpaces s.data
    let words := splitRunsAux spaced.length spaced
    ⟨(words.map titleWord).flatten⟩

/-! ## The Rust IR (`RustTypeIR`, `Method`, `RustItem`) -/

inductive PrimName where
  | i32
  | f64
  | bool
  | str
  | unit
deriving DecidableEq

/-- The literal `name` payload of a `primitive` IR node. -/
def PrimName.text : PrimName → String
  | .i32 => "i32"
  | .f64 => "f64"
  | .bool => "bool"
  | .str => "String"
  | .unit => "()"

inductive RustTypeIR where
  | primitive (name : PrimName)
  | array (element : RustTypeIR) (size : Option Nat)
  | tuple (elements : List RustTypeIR)
  | union (variants : List RustTypeIR)
  | named (name : String)
  | generic (base : String) (args : List RustTypeIR)
  | option (inner : RustTypeIR)
  | js_value

structure MethodArg where
  name : String
  type : RustTypeIR
  optional : Option Bool

inductive MethodKind where
  | constructorKind
  | staticKind
  | instanceKind
deriving DecidableEq

structure Method where
  name : String
  args : List MethodArg
  returnType : RustTypeIR
  methodType : MethodKind

structure StructField where
  name : String
  type : RustTypeIR
  optional : Bool

inductive RustItem where
  | struct (name : String) (fields : List StructField) (derives : Option (List String))
  | enum (name : String) (variants : List String) (derives : Option (List String))
  | extern_block (name : String) (methods : List Method)
  | type_alias (name : String) (target : RustTypeIR)

def RustItem.name : RustItem → String
  | .struct n _ _ => n
  | .enum n _ _ => n
  | .extern_block n _ => n
  | .type_alias n _ => n

def RustItem.isEnum : RustItem → Bool
  | .enum _ _ _ => true
  | _ => false

/-! ## ts-morph values (`Type`, type-alias type nodes, declarations) -/

/-- Model of a ts-morph `Type`.  Each node carries the text that
`type.getText()` renders for it, since the conversion algorithm pattern-matches
on that text. -/
inductive Ty where
  | arrayT (elem : Ty) (text : String)
  | tupleT (elems : List Ty) (text : String)
  | unionT (members : List Ty) (text : String)
  | otherT (text : String)

def Ty.getText : Ty → String
  | .arrayT _ t => t
  | .tupleT _ t => t
  | .unionT _ t => t
  | .otherT t => t

def Ty.isArray : Ty → Bool
  | .arrayT _ _ => true
  | _ => false

def Ty.isTuple : Ty → Bool
  | .tupleT _ _ => true
  | _ => false

def Ty.isUnion : Ty → Bool
  | .unionT _ _ => true
  | _ => false

/-- Model of the syntactic type node of a type alias (`alias.getTypeNode()`):
the enum-synthesis detector only distinguishes union nodes whose members are
string-literal type nodes. -/
inductive TypeNode where
  | unionNode (types : List TypeNode) (text : String)
  | strLitNode (value : String) (text : String)
  | otherNode (text : String)

def TypeNode.getText : TypeNode → String
  | .unionNode _ t => t
  | .strLitNode _ t => t
  | .otherNode t => t

/-! ## JS `Map` as an insertion-ordered association list -/

def mapHas {α : Type} (m : List (String × α)) (k : String) : Bool :=
  m.any (fun p => p.1 == k)

def mapGet {α : Type} (m : List (String × α)) (k : String) : Option α :=
  (m.find? (fun p => p.1 == k)).map (fun p => p.2)

/-- JS `Map.prototype.set`: replaces the value in place for an existing key
(keeping insertion order), appends otherwise. -/
def mapSet {α : Type} (m : List (String × α)) (k : String) (v : α) :
    List (String × α) :=
  match m with
  | [] => [(k, v)]
  | (k', v') :: t => if k' == k then (k, v) :: t else (k', v') :: mapSet t k v

/-! ## Artifact categorization (`getFilePrefix`) -/

inductive FilePrefix where
  | Global
  | Encapsulated
  | Manifold
deriving DecidableEq, BEq

/-- Node `path.basename(p)` (also ignoring trailing slashes). -/
def pathBasename (p : String) : String :=
  ⟨((p.data.reverse.dropWhile (fun c => c = '/')).takeWhile (fun c => c ≠ '/')).reverse⟩

/-- Node `path.basename(p, ext)`: strips `ext` when it is a proper suffix of
the basename. -/
def basenameStrip (p ext : String) : String :=
  let b := pathBasename p
  if ext.data.reverse.isPrefixOf b.data.reverse ∧ b ≠ ext then
    ⟨b.data.take (b.data.length - ext.data.length)⟩
  else b

def getFilePrefix (filePath : String) : Except String FilePrefix :=
  let fileName := basenameStrip filePath ".d.ts"
  if jsIncludes fileName "manifold-global-types" then .ok .Global
  else if jsIncludes fileName "manifold-encapsulated-types" then .ok .Encapsulated
  else if jsIncludes fileName "manifold" then .ok .Manifold
  else .error ("Unknown file: " ++ filePath)

/-! ## The Type-Shape Lowering Engine (`convertTypeToRustIR`) -/

/-- `convertPrimitiveToIR` from the source: the fixed primitive table. -/
def convertPrimitiveToIR (typeText : String) : Option RustTypeIR :=
  if typeText == "string" then some (.primitive .str)
  else if typeText == "number" then some (.primitive .f64)
  else if typeText == "boolean" then some (.primitive .bool)
  else if typeText == "void" then some (.primitive .unit)
  else if typeText == "undefined" then some (.primitive .unit)
  else none

/-- The alias registry: alias name to raw definition text, in insertion
order. -/
def Registry : Type := List (String × String)

def isUnitPrim : RustTypeIR → Bool
  | .primitive .unit => true
  | _ => false

/-- The `T | undefined` collapse check performed on a computed variant list.
In the source, `undefinedVariant` is the first unit-primitive variant and
`innerType` is the first variant that is a *different object* (`!==`); since
every element of the variant list is freshly allocated, object identity
coincides with list position, so for a two-element list the inner type is the
element at the other position. -/
def collapseOptionIR (variants : List RustTypeIR) : Option RustTypeIR :=
  match variants with
  | [a, b] =>
    if isUnitPrim a then some (.option b)
    else if isUnitPrim b then some (.option a)
    else none
  | _ => none

/-- The textual variant parts of a union:
`typeText.split('|').map(part => part.trim().replace(/import\([^)]*\)\./g, ''))`. -/
def computeUnionParts (typeText : String) : List String :=
  (splitChar '|' typeText.data).map (fun piece => removeImportPaths (jsTrim ⟨piece⟩))

/-- Per-part conversion used in the known-alias branch of union handling. -/
def unionPartOf (reg : Registry) (part : String) : RustTypeIR :=
  if mapHas reg part then .named part
  else
    let trimmedPart := jsTrim part
    match convertPrimitiveToIR trimmedPart with
    | some p => p
    | none => .named trimmedPart

/-- The tuple branch: if every element lowered to the same primitive as the
first, collapse to a fixed-size array, else keep a tuple. -/
def tupleCollapse (rustElements : List RustTypeIR) : RustTypeIR :=
  match rustElements with
  | [] => .tuple []
  | r0 :: rest =>
    if (r0 :: rest).all (fun el =>
        match el, r0 with
        | .primitive a, .primitive b => a = b
        | _, _ => false) then
      .array r0 (some (r0 :: rest).length)
    else .tuple (r0 :: rest)

/-- The fallback (`named`) tail of the conversion: typeof expressions,
function types, import-path cleanup and the registry suffix check. -/
def convertFallback (reg : Registry) (typeText : String) : RustTypeIR :=
  if jsStartsWith typeText "typeof " then
    .named (removeImportPaths (jsTrim ⟨typeText.data.drop 7⟩))
  else if jsIncludes typeText "=>" then
    if jsIncludes typeText "() => void" then .named "fn()" else .named "fn()"
  else
    let cleanedName := jsTrim (removeImportPaths typeText)
    let cleanedName2 :=
      if jsStartsWith cleanedName "import(" then
        match matchImportTail cleanedName.data with
        | some tail => (⟨tail⟩ : String)
        | none => cleanedName
      else cleanedName
    match reg.find? (fun p =>
        cleanedName2 == p.1 || jsEndsWith cleanedName2 ("." ++ p.1)) with
    | some p => .named p.1
    | none => .named cleanedName2

mutual

/-- `convertTypeToRustIR` from the source, for a present (non-`undefined`)
type.  The precedence is that of the source: primitive text, array, tuple,
union, then the textual fallback.  (In the model an array type always has an
element type, matching ts-morph behaviour on the shapes this pipeline
visits.) -/
def convertTypeToRustIR (reg : Registry) (t : Ty) : RustTypeIR :=
  let typeText := jsTrim t.getText
  match convertPrimitiveToIR typeText with
  | some p => p
  | none =>
    match t with
    | .arrayT elem _ => .array (convertTypeToRustIR reg elem) none
    | .tupleT elems _ => tupleCollapse (convertTyList reg elems)
    | .unionT members _ =>
      let unionParts := computeUnionParts typeText
      if unionParts.any (fun p => mapHas reg p) then
        let variants := unionParts.map (unionPartOf reg)
        match collapseOptionIR variants with
        | some o => o
        | none => .union variants
      else
        let variants := convertTyList reg members
        match collapseOptionIR variants with
        | some o => o
        | none => .union variants
    | .otherT _ => convertFallback reg typeText

/-- State-free elementwise conversion (`elements.map(el => convertTypeToRustIR(el))`). -/
def convertTyList (reg : Registry) : List Ty → List RustTypeIR
  | [] => []
  | t :: ts => convertTypeToRustIR reg t :: convertTyList reg ts

end

/-- `convertTypeToRustIR` on a possibly-absent input (`if (!type) return unit`). -/
def convertTypeToRustIROpt (reg : Registry) : Option Ty → RustTypeIR
  | none => .primitive .unit
  | some t => convertTypeToRustIR reg t

/-! ## `JSON.stringify` for `RustTypeIR` values

The deduplicator keys its cache on `JSON.stringify(variant)`.  Objects are
serialized with their keys in construction order (which in the source always
follows the declaration order of `RustTypeIR`), absent optional fields are
omitted, and strings are escaped per `QuoteJSONString` (quote, backslash, the
five short control escapes and `\u00XX` for the remaining control
characters, lowercase hex). -/

def hexDigitChar (n : Nat) : Char :=
  if n < 10 then Char.ofNat (48 + n) else Char.ofNat (87 + n)

def escapeJsonChar (c : Char) : List Char :=
  if c = '"' then ['\\', '"']
  else if c = '\\' then ['\\', '\\']
  else if c = '\x08' then ['\\', 'b']
  else if c = '\t' then ['\\', 't']
  else if c = '\n' then ['\\', 'n']
  else if c = '\x0c' then ['\\', 'f']
  else if c = '\r' then ['\\', 'r']
  else if c.toNat < 32 then
    ['\\', 'u', '0', '0', hexDigitChar (c.toNat / 16), hexDigitChar (c.toNat % 16)]
  else [c]

/-- The escaped body of a JSON string literal (the text between the
quotes). -/
def jsonStrBody (s : String) : List Char := s.data.flatMap escapeJsonChar

/-- `Array.prototype.join` with a one-character separator. -/
def joinSepC (sep : Char) : List (List Char) → List Char
  | [] => []
  | [x] => x
  | x :: y :: t => x ++ sep :: joinSepC sep (y :: t)

/-- Literal chunks shared by the serializer and the verification parser
(named so rewriting is syntactic). -/
def chKindHdr : List Char := "\x7b\"kind\":\"".data

def chPrimitiveQ : List Char := "primitive\"".data

def chArrayQ : List Char := "array\"".data

def chTupleQ : List Char := "tuple\"".data

def chUnionQ : List Char := "union\"".data

def chNamedQ : List Char := "named\"".data

def chGenericQ : List Char := "generic\"".data

def chOptionQ : List Char := "option\"".data

def chJsValueQ : List Char := "js_value\"".data

def chNameKey : List Char := ",\"name\":\"".data

def chElementKey : List Char := ",\"element\":".data

def chSizeKey : List Char := ",\"size\":".data

def chElementsKey : List Char := ",\"elements\":[".data

def chVariantsKey : List Char := ",\"variants\":[".data

def chBaseKey : List Char := ",\"base\":\"".data

def chArgsKey : List Char := ",\"args\":[".data

def chInnerKey : List Char := ",\"inner\":".data

def chRBrace : List Char := "\x7d".data

def chRBracketBrace : List Char := "]\x7d".data

def chComma : List Char := ",".data

def chRBracket : List Char := "]".data

def chPipe : List Char := "|".data

def wPrimitive : List Char := "primitive".data

def wArray : List Char := "array".data

def wTuple : List Char := "tuple".data

def wUnion : List Char := "union".data

def wNamed : List Char := "named".data

def wGeneric : List Char := "generic".data

def wOption : List Char := "option".data

def wJsValue : List Char := "js_value".data

mutual

/-- `JSON.stringify` of one IR node, written as the concatenation of its
literal pieces (the chunk boundaries are irrelevant to the resulting
character list; they are chosen to line up with the verification parser
below). -/
def jsonIR : RustTypeIR → List Char
  | .primitive p =>
    chKindHdr ++ (chPrimitiveQ ++ (chNameKey ++
      (jsonStrBody p.text ++ ('"' :: chRBrace))))
  | .array e sz =>
    chKindHdr ++ (chArrayQ ++ (chElementKey ++
      (jsonIR e ++
        ((match sz with
          | some n => chSizeKey ++ decChars n
          | none => []) ++ chRBrace))))
  | .tuple es =>
    chKindHdr ++ (chTupleQ ++ (chElementsKey ++
      (joinSepC ',' (jsonIRList es) ++ chRBracketBrace)))
  | .union vs =>
    chKindHdr ++ (chUnionQ ++ (chVariantsKey ++
      (joinSepC ',' (jsonIRList vs) ++ chRBracketBrace)))
  | .named n =>
    chKindHdr ++ (chNamedQ ++ (chNameKey ++
      (jsonStrBody n ++ ('"' :: chRBrace))))
  | .generic b args =>
    chKindHdr ++ (chGenericQ ++ (chBaseKey ++
      (jsonStrBody b ++ ('"' :: (chArgsKey ++
        (joinSepC ',' (jsonIRList args) ++ chRBracketBrace))))))
  | .option i =>
    chKindHdr ++ (chOptionQ ++ (chInnerKey ++
      (jsonIR i ++ chRBrace)))
  | .js_value => chKindHdr ++ (chJsValueQ ++ chRBrace)

def jsonIRList : List RustTypeIR → List (List Char)
  | [] => []
  | v :: vs => jsonIR v :: jsonIRList vs

end

/-! ### A verification parser for `jsonIR`

The serializer is shown injective (even on adjacent concatenations) through a
recursive-descent parser that inverts it; the parser exists only for the
proofs and models nothing in the source. -/

def digitVal (c : Char) : Nat := c.toNat - 48

def digitsVal (l : List Char) : Nat :=
  l.foldl (fun a c => 10 * a + digitVal c) 0

def hexVal (c : Char) : Option Nat :=
  if '0' ≤ c ∧ c ≤ '9' then some (c.toNat - 48)
  else if 'a' ≤ c ∧ c ≤ 'f' then some (c.toNat - 87)
  else none

def expectPre (pre l : List Char) : Option (List Char) :=
  if pre.isPrefixOf l then some (l.drop pre.length) else none

mutual

/-- Reads a JSON string body up to its closing quote, undoing
`escapeJsonChar`. -/
def parseJsonString2 : List Char → Option (List Char × List Char)
  | [] => none
  | c :: r =>
    if c = '"' then some ([], r)
    else if c = '\\' then parseJsonEsc r
    else (parseJsonString2 r).map (fun p => (c :: p.1, p.2))

def parseJsonEsc : List Char → Option (List Char × List Char)
  | [] => none
  | e :: r2 =>
    if e = '"' then (parseJsonString2 r2).map (fun p => ('"' :: p.1, p.2))
    else if e = '\\' then (parseJsonString2 r2).map (fun p => ('\\' :: p.1, p.2))
    else if e = 'b' then (parseJsonString2 r2).map (fun p => ('\x08' :: p.1, p.2))
    else if e = 't' then (parseJsonString2 r2).map (fun p => ('\t' :: p.1, p.2))
    else if e = 'n' then (parseJsonString2 r2).map (fun p => ('\n' :: p.1, p.2))
    else if e = 'f' then (parseJsonString2 r2).map (fun p => ('\x0c' :: p.1, p.2))
    else if e = 'r' then (parseJsonString2 r2).map (fun p => ('\r' :: p.1, p.2))
    else if e = 'u' then parseJsonUEsc r2
    else none

def parseJsonUEsc : List Char → Option (List Char × List Char)
  | a :: b :: h1 :: h2 :: r3 =>
    if a = '0' ∧ b = '0' then
      match hexVal h1, hexVal h2 with
      | some x, some y =>
        (parseJsonString2 r3).map (fun p => (Char.ofNat (16 * x + y) :: p.1, p.2))
      | _, _ => none
    else none
  | _ => none

end

def decodePrimName (s : List Char) : Option PrimName :=
  if s = "i32".data then some .i32
  else if s = "f64".data then some .f64
  else if s = "bool".data then some .bool
  else if s = "String".data then some .str
  else if s = "()".data then some .unit
  else none

inductive KindTag where
  | primitiveK
  | arrayK
  | tupleK
  | unionK
  | namedK
  | genericK
  | optionK
  | jsValueK

def decodeKind (s : List Char) : Option KindTag :=
  if s = wPrimitive then some .primitiveK
  else if s = wArray then some .arrayK
  else if s = wTuple then some .tupleK
  else if s = wUnion then some .unionK
  else if s = wNamed then some .namedK
  else if s = wGeneric then some .genericK
  else if s = wOption then some .optionK
  else if s = wJsValue then some .jsValueK
  else none

mutual

def parseIR : Nat → List Char → Option (RustTypeIR × List Char)
  | 0, _ => none
  | fuel + 1, l =>
    match expectPre chKindHdr l with
    | none => none
    | some l1 =>
      match parseJsonString2 l1 with
      | none => none
      | some (kind, r) =>
        match decodeKind kind with
        | none => none
        | some .primitiveK =>
          match expectPre chNameKey r with
          | none => none
          | some r1 =>
            match parseJsonString2 r1 with
            | none => none
            | some (nm, r2) =>
              match decodePrimName nm with
              | none => none
              | some p =>
                match expectPre chRBrace r2 with
                | some r3 => some (.primitive p, r3)
                | none => none
        | some .arrayK =>
          match expectPre chElementKey r with
          | none => none
          | some r1 =>
            match parseIR fuel r1 with
            | none => none
            | some (e, r2) =>
              match expectPre chSizeKey r2 with
              | some r3 =>
                if (r3.takeWhile Char.isDigit).isEmpty then none
                else
                  match expectPre chRBrace (r3.dropWhile Char.isDigit) with
                  | some r4 =>
                    some (.array e (some (digitsVal (r3.takeWhile Char.isDigit))), r4)
                  | none => none
              | none =>
                match expectPre chRBrace r2 with
                | some r3 => some (.array e none, r3)
                | none => none
        | some .tupleK =>
          match expectPre chElementsKey r with
          | none => none
          | some r1 =>
            match expectPre chRBracketBrace r1 with
            | some r2 => some (.tuple [], r2)
            | none =>
              match parseIRElems fuel r1 with
              | none => none
              | some (vs, r2) =>
                match expectPre chRBrace r2 with
                | some r3 => some (.tuple vs, r3)
                | none => none
        | some .unionK =>
          match expectPre chVariantsKey r with
          | none => none
          | some r1 =>
            match expectPre chRBracketBrace r1 with
            | some r2 => some (.union [], r2)
            | none =>
              match parseIRElems fuel r1 with
              | none => none
              | some (vs, r2) =>
                match expectPre chRBrace r2 with
                | some r3 => some (.union vs, r3)
                | none => none
        | some .namedK =>
          match expectPre chNameKey r with
          | none => none
          | some r1 =>
            match parseJsonString2 r1 with
            | none => none
            | some (nm, r2) =>
              match expectPre chRBrace r2 with
              | some r3 => some (.named ⟨nm⟩, r3)
              | none => none
        | some .genericK =>
          match expectPre chBaseKey r with
          | none => none
          | some r1 =>
            match parseJsonString2 r1 with
            | none => none
            | some (b, r2) =>
              match expectPre chArgsKey r2 with
              | none => none
              | some r3 =>
                match expectPre chRBracketBrace r3 with
                | some r4 => some (.generic ⟨b⟩ [], r4)
                | none =>
                  match parseIRElems fuel r3 with
                  | none => none
                  | some (args, r4) =>
                    match expectPre chRBrace r4 with
                    | some r5 => some (.generic ⟨b⟩ args, r5)
                    | none => none
        | some .optionK =>
          match expectPre chInnerKey r with
          | none => none
          | some r1 =>
            match parseIR fuel r1 with
            | none => none
            | some (i, r2) =>
              match expectPre chRBrace r2 with
              | some r3 => some (.option i, r3)
              | none => none
        | some .jsValueK =>
          match expectPre chRBrace r with
          | some r1 => some (.js_value, r1)
          | none => none

/-- Parses a nonempty comma-separated element list and its closing `]`. -/
def parseIRElems : Nat → List Char → Option (List RustTypeIR × List Char)
  | 0, _ => none
  | fuel + 1, l =>
    match parseIR fuel l with
    | none => none
    | some (v, r) =>
      match expectPre chComma r with
      | some r2 =>
        match parseIRElems fuel r2 with
        | none => none
        | some (vs, r3) => some (v :: vs, r3)
      | none =>
        match expectPre chRBracket r with
        | some r2 => some ([v], r2)
        | none => none

end

/-- Splits a deduplicator signature back into serialized variants (the
signature is the sorted serializations joined by `|`). -/
def parseSigVariants : Nat → List Char → Option (List RustTypeIR)
  | _, [] => some []
  | 0, _ => none
  | fuel + 1, l =>
    match parseIR fuel l with
    | none => none
    | some (v, r) =>
      match r with
      | [] => some [v]
      | _ =>
        match expectPre chPipe r with
        | some r2 =>
          match parseSigVariants fuel r2 with
          | none => none
          | some vs => some (v :: vs)
        | none => none

/-! ## The Placeholder-Union Deduplicator -/

/-- Code-point lexicographic comparison of character lists.  JS
`Array.prototype.sort`'s default comparator orders strings by UTF-16 code
units; the two orders agree except on the relative order of supplementary
characters, and any fixed total order yields the same canonicalization
behaviour (signature equality is what the deduplicator consumes). -/
def lexLeB : List Char → List Char → Bool
  | [], _ => true
  | _ :: _, [] => false
  | x :: xs, y :: ys =>
    if x.toNat < y.toNat then true
    else if y.toNat < x.toNat then false
    else lexLeB xs ys

def sortedSigs (l : List (List Char)) : List (List Char) :=
  List.insertionSort (fun a b => lexLeB a b = true) l

/-- The cache signature:
`variants.map(v => JSON.stringify(v)).sort().join('|')`. -/
def variantSignature (variants : List RustTypeIR) : String :=
  ⟨joinSepC '|' (sortedSigs (variants.map jsonIR))⟩

/-- The run-scoped mutable module state of the deduplicator:
`todoUnionCounter`, `todoUnionCache` and `todoTypes`. -/
structure TodoState where
  todoUnionCounter : Nat
  todoUnionCache : List (String × String)
  todoTypes : List (String × List RustTypeIR)

/-- Module-load state: counter 1, both maps empty. -/
def initTodoState : TodoState := ⟨1, [], []⟩

/-- The name produced by `` `Todo${getNextTodoUnionId()}Union` `` for a given
counter value. -/
def todoNameOf (n : Nat) : String :=
  "Todo" ++ (⟨padStart3 (decChars n)⟩ : String) ++ "Union"

def registerTodoType (typeName : String) (variants : List RustTypeIR)
    (todo : List (String × List RustTypeIR)) : List (String × List RustTypeIR) :=
  if mapHas todo typeName then todo else todo ++ [(typeName, variants)]

def getOrCreateTodoUnionName (variants : List RustTypeIR) (st : TodoState) :
    String × TodoState :=
  let signature := variantSignature variants
  match mapGet st.todoUnionCache signature with
  | some nm => (nm, st)
  | none =>
    let todoTypeName := todoNameOf st.todoUnionCounter
    (todoTypeName,
      ⟨st.todoUnionCounter + 1,
        mapSet st.todoUnionCache signature todoTypeName,
        registerTodoType todoTypeName variants st.todoTypes⟩)

/-! ## Code generation (`rustTypeIRToString`, `rustItemToString`) -/

mutual

/-- `rustTypeIRToString`; the mutation of the deduplicator's module state is
made explicit.  In `typeIR.size ? .. : ..` a size of `0` is falsy and yields
the `Vec` form. -/
def rustTypeIRToString : RustTypeIR → TodoState → String × TodoState
  | .primitive p, st => (p.text, st)
  | .array e sz, st =>
    let (elementStr, st') := rustTypeIRToString e st
    (match sz with
     | some n =>
       if n ≠ 0 then "[" ++ elementStr ++ "; " ++ decString n ++ "]"
       else "Vec<" ++ elementStr ++ ">"
     | none => "Vec<" ++ elementStr ++ ">", st')
  | .tuple es, st =>
    let (strs, st') := rustTypeListToStrings es st
    ("(" ++ String.intercalate ", " strs ++ ")", st')
  | .union vs, st => getOrCreateTodoUnionName vs st
  | .named n, st => (n, st)
  | .generic b args, st =>
    let (strs, st') := rustTypeListToStrings args st
    (b ++ "<" ++ String.intercalate ", " strs ++ ">", st')
  | .option i, st =>
    let (s, st') := rustTypeIRToString i st
    ("Option<" ++ s ++ ">", st')
  | .js_value, st => ("wasm_bindgen::JsValue", st)

def rustTypeListToStrings : List RustTypeIR → TodoState → List String × TodoState
  | [], st => ([], st)
  | v :: vs, st =>
    let (s, st') := rustTypeIRToString v st
    let (ss, st'') := rustTypeListToStrings vs st'
    (s :: ss, st'')

end

def derivesHeader : Option (List String) → String
  | some ds => "#[derive(" ++ String.intercalate ", " ds ++ ")]\n"
  | none => ""

def structFieldLines : List StructField → TodoState → String × TodoState
  | [], st => ("", st)
  | f :: fs, st =>
    let (tyStr, st') := rustTypeIRToString f.type st
    let fieldType := if f.optional then "Option<" ++ tyStr ++ ">" else tyStr
    let (rest, st'') := structFieldLines fs st'
    ("    pub " ++ f.name ++ ": " ++ fieldType ++ ",\n" ++ rest, st'')

def methodArgStrings : List MethodArg → TodoState → List String × TodoState
  | [], st => ([], st)
  | a :: as', st =>
    let (tyStr, st') := rustTypeIRToString a.type st
    let argType :=
      match a.optional with
      | some true => "Option<" ++ tyStr ++ ">"
      | _ => tyStr
    let (rest, st'') := methodArgStrings as' st'
    ((a.name ++ ": " ++ argType) :: rest, st'')

def externMethodLines (itemName : String) : List Method → TodoState → String × TodoState
  | [], st => ("", st)
  | m :: ms, st =>
    let head :=
      match m.methodType with
      | .constructorKind => "    #[wasm_bindgen(constructor)]\n    fn new("
      | .staticKind =>
        "    #[wasm_bindgen(static_method_of = " ++ itemName ++ ", js_name = " ++
          m.name ++ ")]\n    fn " ++ m.name ++ "("
      | .instanceKind =>
        "    #[wasm_bindgen(method)]\n    fn " ++ m.name ++ "(this: &" ++ itemName ++
          (if m.args.length > 0 then ", " else "")
    let (argStrs, st') := methodArgStrings m.args st
    let (retStr, st'') := rustTypeIRToString m.returnType st'
    let (rest, st''') := externMethodLines itemName ms st''
    (head ++ String.intercalate ", " argStrs ++ ") -> " ++ retStr ++ ";\n\n" ++ rest,
      st''')

/-- `rustItemToString`: serialization of one target declaration.  For enums,
`Global`-prefixed names get explicit string values. -/
def rustItemToString : RustItem → TodoState → String × TodoState
  | .struct name fields derives, st =>
    let (fieldsStr, st') := structFieldLines fields st
    (derivesHeader derives ++ "pub struct " ++ name ++ " \x7b\n" ++ fieldsStr ++
      "\x7d\n\n", st')
  | .enum name variants derives, st =>
    let isGlobalEnum := jsStartsWith name "Global"
    let lines := variants.map (fun v =>
      if isGlobalEnum then "    " ++ v ++ " = \"" ++ v ++ "\",\n" else "    " ++ v ++ ",\n")
    (derivesHeader derives ++ "pub enum " ++ name ++ " \x7b\n" ++
      String.join lines ++ "\x7d\n\n", st)
  | .extern_block name methods, st =>
    let (body, st') := externMethodLines name methods st
    ("#[wasm_bindgen]\nextern \"C\" \x7b\n    type " ++ name ++ ";\n\n" ++ body ++
      "\x7d\n\n", st')
  | .type_alias name target, st =>
    let (s, st') := rustTypeIRToString target st
    ("pub type " ++ name ++ " = " ++ s ++ ";\n\n", st')

/-! ## The shared todo-unions artifact (`generateTodoUnionsFile`) -/

def generateTodoUnionStruct (typeName : String) (variants : List RustTypeIR)
    (st : TodoState) : String × TodoState :=
  let (strs, st') := rustTypeListToStrings variants st
  let variantsComment := String.intercalate " | " strs
  ("// TODO: Implement proper union type for: " ++ variantsComment ++ "\n" ++
    "// This is a placeholder struct - implement proper sum type or enum\n" ++
    "#[derive(Debug, Clone, Serialize, Deserialize)]\n" ++
    "pub struct " ++ typeName ++ " \x7b\n" ++
    "    // TODO: Replace with proper union implementation\n" ++
    "    // Possible variants: " ++ variantsComment ++ "\n" ++
    "    pub todo_data: String, // Placeholder - implement actual data structure\n" ++
    "\x7d\n\n" ++
    "impl " ++ typeName ++ " \x7b\n" ++
    "    pub fn todo() -> Self \x7b\n" ++
    "        Self \x7b\n" ++
    "            todo_data: \"TODO: Implement union type\".to_string()\n" ++
    "        \x7d\n" ++
    "    \x7d\n" ++
    "\x7d\n\n", st')

mutual

/-- Measure used to bound the todo-union worklist: serializing a variant can
register at most one new todo entry per union node it contains, and the
variants of such an entry are strict subterms. -/
def irMeasure : RustTypeIR → Nat
  | .primitive _ => 1
  | .named _ => 1
  | .js_value => 1
  | .array e _ => 1 + irMeasure e
  | .tuple es => 1 + irMeasureList es
  | .union vs => 2 + irMeasureList vs
  | .generic _ args => 1 + irMeasureList args
  | .option i => 1 + irMeasure i

def irMeasureList : List RustTypeIR → Nat
  | [] => 0
  | v :: vs => irMeasure v + irMeasureList vs

end

def todoEntryMeasure (e : String × List RustTypeIR) : Nat :=
  1 + irMeasureList e.2

/-- The `for (const [typeName, variants] of todoTypes)` loop of
`generateTodoUnionsFile`.  A JS `Map` iterator visits entries appended during
iteration, so the loop is a worklist over `st.todoTypes` indexed by position.
Every processed entry strictly decreases the total remaining
`todoEntryMeasure` (new entries spawned by an entry are strictly smaller), so
a fuel of the initial total measure is sufficient; the fuel only discharges
termination and is never exhausted. -/
def genTodoStructs : Nat → Nat → TodoState → String → String × TodoState
  | 0, _, st, acc => (acc, st)
  | fuel + 1, i, st, acc =>
    match st.todoTypes.get? i with
    | none => (acc, st)
    | some (typeName, variants) =>
      let (s, st') := generateTodoUnionStruct typeName variants st
      genTodoStructs fuel (i + 1) st' (acc ++ s)

/-- `generateTodoUnionsFile`: returns the file written (name and contents),
if any, plus the final deduplicator state.  The early return on an empty
`todoTypes` map writes nothing. -/
def generateTodoUnionsFile (st : TodoState) : Option (String × String) × TodoState :=
  if st.todoTypes.length == 0 then (none, st)
  else
    let fuel := (st.todoTypes.map todoEntryMeasure).sum + 1
    let (body, st') := genTodoStructs fuel 0 st ""
    (some ("todo_unions.rs",
      "// Auto-generated Todo Union types\n\n" ++
        "use serde::\x7bSerialize, Deserialize\x7d;\n\n" ++ body), st')

/-! ## Source declarations and Declaration Lowering -/

structure SrcParam where
  name : String
  type : Ty

structure SrcMethodDecl where
  name : String
  params : List SrcParam
  returnType : Ty

structure SrcProp where
  name : String
  type : Ty
  hasQuestionToken : Bool

structure SrcInterfaceDecl where
  name : Option String
  properties : List SrcProp

structure SrcTypeAliasDecl where
  name : String
  typeNode : Option TypeNode
  type : Ty

structure SrcClassDecl where
  name : Option String
  ctors : List (List SrcParam)
  staticMethods : List SrcMethodDecl
  methods : List SrcMethodDecl
  properties : List SrcProp

structure SrcEnumDecl where
  name : String
  members : List String

/-- One input artifact: its full path (`getFilePath()`), its base name
(`getBaseName()`), and its declarations in source order. -/
structure SrcFile where
  path : String
  baseName : String
  interfaces : List SrcInterfaceDecl
  typeAliases : List SrcTypeAliasDecl
  classes : List SrcClassDecl
  enums : List SrcEnumDecl

def structDerives : Option (List String) :=
  some ["Debug", "Clone", "Serialize", "Deserialize"]

/-- `processInterface`.  The categorization call can throw; the two sealed
typed-array names are special-cased to const-generic array aliases. -/
def processInterface (reg : Registry) (filePath : String)
    (d : SrcInterfaceDecl) : Except String (Option RustItem) := do
  match d.name with
  | none => return none
  | some name =>
    let _ ← getFilePrefix filePath
    if name == "SealedUint32Array" then
      return some (.type_alias name (.named "[u32; N]"))
    else if name == "SealedFloat32Array" then
      return some (.type_alias name (.named "[f32; N]"))
    else
      return some (.struct name
        (d.properties.map (fun p =>
          ⟨convertToSnakeCase p.name, convertTypeToRustIR reg p.type,
            p.hasQuestionToken⟩))
        structDerives)

/-- `processTypeAlias`: the six hard-coded vector aliases, then IR
conversion, with the self-referential-alias-to-`JsValue` rewrite for the main
artifact. -/
def processTypeAlias (reg : Registry) (filePath : String)
    (ta : SrcTypeAliasDecl) : Except String RustItem := do
  let fileName ← getFilePrefix filePath
  if ta.name == "Vec2" then
    return .type_alias "Vec2" (.array (.primitive .f64) (some 2))
  else if ta.name == "Vec3" then
    return .type_alias "Vec3" (.array (.primitive .f64) (some 3))
  else if ta.name == "Mat3" then
    return .type_alias "Mat3" (.array (.primitive .f64) (some 9))
  else if ta.name == "Mat4" then
    return .type_alias "Mat4" (.array (.primitive .f64) (some 16))
  else if ta.name == "SimplePolygon" then
    return .type_alias "SimplePolygon" (.array (.named "Vec2") none)
  else if ta.name == "Polygons" then
    return .type_alias "Polygons" (.array (.named "SimplePolygon") none)
  else
    let convertedTypeIR := convertTypeToRustIR reg ta.type
    let selfNamed : Bool :=
      match convertedTypeIR with
      | .named m => fileName == FilePrefix.Manifold && m == ta.name
      | _ => false
    if selfNamed then
      return .type_alias ta.name .js_value
    else
      return .type_alias ta.name convertedTypeIR

/-- `processClass`: encapsulated-category classes become extern blocks
(constructors, then static methods, then instance methods); classes with
properties become structs; other classes degrade to a `JsValue` alias. -/
def processClass (reg : Registry) (filePath : String)
    (c : SrcClassDecl) : Except String (Option RustItem) := do
  match c.name with
  | none => return none
  | some name =>
    let fileName ← getFilePrefix filePath
    if fileName = FilePrefix.Encapsulated then
      let ctorMethods : List Method := c.ctors.map (fun params =>
        ⟨"new",
          params.map (fun p =>
            ⟨convertToSnakeCase p.name, convertTypeToRustIR reg p.type, none⟩),
          .named name, .constructorKind⟩)
      let staticMethodsIR : List Method := c.staticMethods.map (fun m =>
        ⟨convertToSnakeCase m.name,
          m.params.map (fun p =>
            ⟨convertToSnakeCase p.name, convertTypeToRustIR reg p.type, none⟩),
          convertTypeToRustIR reg m.returnType, .staticKind⟩)
      let instanceMethodsIR : List Method := c.methods.map (fun m =>
        ⟨convertToSnakeCase m.name,
          m.params.map (fun p =>
            ⟨convertToSnakeCase p.name, convertTypeToRustIR reg p.type, none⟩),
          convertTypeToRustIR reg m.returnType, .instanceKind⟩)
      return some (.extern_block name
        (ctorMethods ++ staticMethodsIR ++ instanceMethodsIR))
    else if c.properties.length > 0 then
      return some (.struct name
        (c.properties.map (fun p =>
          ⟨convertToSnakeCase p.name, convertTypeToRustIR reg p.type,
            p.hasQuestionToken⟩))
        structDerives)
    else
      return some (.type_alias name .js_value)

/-- `processEnum`: the returned item carries the raw member names (the
PascalCase conversion in this function only feeds a discarded local
string). -/
def processEnum (filePath : String) (e : SrcEnumDecl) :
    Except String RustItem := do
  let _ ← getFilePrefix filePath
  return .enum e.name e.members
    (some ["Debug", "Clone", "Copy", "PartialEq", "Eq", "Serialize", "Deserialize"])

/-! ## The Alias Registry pass and enum synthesis -/

def Store : Type := List (String × RustItem)

def enumSynthDerives : Option (List String) :=
  some ["Debug", "Clone", "Serialize", "Deserialize"]

/-- `createEnumFromStringLiterals`: registers a synthesized enum under the
`baseName-name` key of the generated-items map. -/
def createEnumFromStringLiterals (sf : SrcFile) (name : String)
    (stringLiterals : List String) (items : Store) : Except String Store := do
  let variants := stringLiterals.map toPascalCase
  let _ ← getFilePrefix sf.path
  let key := sf.baseName ++ "-" ++ name
  return mapSet items key (.enum name variants enumSynthDerives)

def isStrLitNode : TypeNode → Option String
  | .strLitNode v _ => some v
  | _ => none

/-- The per-alias body of `registerTypeAliases`: record the raw definition
text (with the special-cased `Polygons` normalization), then synthesize an
enum when the alias's type node is a union of more than one string-literal
node. -/
def registerOneTypeAlias (sf : SrcFile) (acc : Registry × Store)
    (a : SrcTypeAliasDecl) : Except String (Registry × Store) := do
  match a.typeNode with
  | none => return acc
  | some node =>
    let typeText := node.getText
    if typeText == "" then return acc
    else
      let reg' :=
        if a.name == "Polygons" ∧ jsIncludes typeText "SimplePolygon|SimplePolygon[]" then
          mapSet acc.1 a.name "SimplePolygon[]"
        else mapSet acc.1 a.name typeText
      match node with
      | .unionNode unionTypes _ =>
        let stringLiterals := unionTypes.filterMap isStrLitNode
        if stringLiterals.length == unionTypes.length ∧ stringLiterals.length > 1 then
          let items' ← createEnumFromStringLiterals sf a.name stringLiterals acc.2
          return (reg', items')
        else return (reg', acc.2)
      | _ => return (reg', acc.2)

def registerTypeAliases (acc : Registry × Store) (sf : SrcFile) :
    Except String (Registry × Store) :=
  sf.typeAliases.foldlM (registerOneTypeAlias sf) acc

/-! ## The two-pass pipeline of `generateRustTypes` -/

def storeKey (sf : SrcFile) (item : RustItem) : String :=
  sf.baseName ++ "-" ++ item.name

def storeOptItem (sf : SrcFile) (items : Store) : Option RustItem → Store
  | some item => mapSet items (storeKey sf item) item
  | none => items

/-- The second-pass body for one source file: interfaces, type aliases,
classes, then enums, each successfully lowered item registered under its
`baseName-name` key. -/
def processFileDecls (reg : Registry) (sf : SrcFile) (items : Store) :
    Except String Store := do
  let items ← sf.interfaces.foldlM (fun acc d => do
    let r ← processInterface reg sf.path d
    return storeOptItem sf acc r) items
  let items ← sf.typeAliases.foldlM (fun acc d => do
    let r ← processTypeAlias reg sf.path d
    return storeOptItem sf acc (some r)) items
  let items ← sf.classes.foldlM (fun acc d => do
    let r ← processClass reg sf.path d
    return storeOptItem sf acc r) items
  let items ← sf.enums.foldlM (fun acc d => do
    let r ← processEnum sf.path d
    return storeOptItem sf acc (some r)) items
  return items

/-- The in-memory portion of `generateRustTypes`: a fresh generated-items
map, the registry pass over every file, then the lowering pass over every
file.  (Output-file serialization is modelled separately.) -/
def runTypeGenPasses (files : List SrcFile) : Except String (Registry × Store) := do
  let pass1 ← files.foldlM registerTypeAliases (([] : Registry), ([] : Store))
  let items ← files.foldlM (fun acc sf => processFileDecls pass1.1 sf acc) pass1.2
  return (pass1.1, items)

/-! ## Concrete verification fixtures -/

/-- The `FillRule` alias of `manifold-global-types.d.ts`: a union of two
string-literal types, given both as its syntactic type node and as the
checker type the lowering engine sees. -/
def fillRuleAlias : SrcTypeAliasDecl :=
  ⟨"FillRule",
    some (.unionNode
      [.strLitNode "EvenOdd" "\"EvenOdd\"", .strLitNode "NonZero" "\"NonZero\""]
      "\"EvenOdd\" | \"NonZero\""),
    .unionT [.otherT "\"EvenOdd\"", .otherT "\"NonZero\""]
      "\"EvenOdd\" | \"NonZero\""⟩

def fillRuleFile : SrcFile :=
  ⟨"manifold-global-types.d.ts", "manifold-global-types.d.ts",
    [], [fillRuleAlias], [], []⟩

/-- An encapsulated-category class with constructor `(width: number,
height: number)` and instance method `volume(): number`. -/
def boxClass : SrcClassDecl :=
  ⟨some "Box",
    [[⟨"width", .otherT "number"⟩, ⟨"height", .otherT "number"⟩]],
    [],
    [⟨"volume", [], .otherT "number"⟩],
    []⟩

/-- A file declaring two aliases of the same name, so that the second
registration hits an already-present generated-items key. -/
def c9File : SrcFile :=
  ⟨"manifold.d.ts", "manifold.d.ts", [],
    [⟨"A", none, .otherT "number"⟩, ⟨"A", none, .otherT "string"⟩],
    [], []⟩

/-! ## Verification apparatus: basic lemmas -/

theorem strMk_data (s : String) : (⟨s.data⟩ : String) = s := by
  cases s
  rfl

theorem expectPre_append (pre r : List Char) : expectPre pre (pre ++ r) = some r := by
  have h : pre.isPrefixOf (pre ++ r) = true :=
    List.isPrefixOf_iff_prefix.mpr (List.prefix_append pre r)
  simp [expectPre, h]

theorem hexVal_hexDigitChar (n : Nat) (h : n < 16) :
    hexVal (hexDigitChar n) = some n := by
  interval_cases n <;> decide

theorem digitVal_ofNat (n : Nat) (h : n < 10) :
    digitVal (Char.ofNat (48 + n)) = n := by
  interval_cases n <;> decide

theorem isDigit_ofNat (n : Nat) (h : n < 10) :
    (Char.ofNat (48 + n)).isDigit = true := by
  interval_cases n <;> decide

theorem decCharsAux_all_digits :
    ∀ fuel n, (decCharsAux fuel n).all Char.isDigit = true := by
  intro fuel
  induction fuel with
  | zero => intro n; rfl
  | succ f ih =>
    intro n
    by_cases h : n < 10
    · simp [decCharsAux, h, isDigit_ofNat n h]
    · have h10 : n % 10 < 10 := Nat.mod_lt _ (by omega)
      simp [decCharsAux, h, List.all_append, ih (n / 10), isDigit_ofNat _ h10]

theorem decCharsAux_ne_nil (fuel n : Nat) (h : 0 < fuel) :
    decCharsAux fuel n ≠ [] := by
  match fuel, h with
  | f + 1, _ =>
    by_cases h10 : n < 10 <;> simp [decCharsAux, h10]

theorem decChars_ne_nil (n : Nat) : decChars n ≠ [] :=
  decCharsAux_ne_nil _ _ (by omega)

theorem digitsVal_append_digit (l : List Char) (c : Char) :
    digitsVal (l ++ [c]) = 10 * digitsVal l + digitVal c := by
  simp [digitsVal, List.foldl_concat]

theorem digitsVal_decCharsAux :
    ∀ fuel n, n < fuel → digitsVal (decCharsAux fuel n) = n := by
  intro fuel
  induction fuel with
  | zero => omega
  | succ f ih =>
    intro n hn
    by_cases h : n < 10
    · simp [decCharsAux, h, digitsVal, digitVal_ofNat n h]
    · have hdiv : n / 10 < n := Nat.div_lt_self (by omega) (by omega)
      have hmod : n % 10 < 10 := Nat.mod_lt _ (by omega)
      simp only [decCharsAux, h, if_false, digitsVal_append_digit,
        ih (n / 10) (by omega), digitVal_ofNat _ hmod]
      omega

theorem digitsVal_decChars (n : Nat) : digitsVal (decChars n) = n :=
  digitsVal_decCharsAux _ _ (by omega)

theorem digitsVal_replicate_zero (k : Nat) (l : List Char) :
    digitsVal (List.replicate k '0' ++ l) = digitsVal l := by
  induction k with
  | zero => rfl
  | succ m ih =>
    have : digitsVal (List.replicate (m + 1) '0' ++ l)
        = (List.replicate m '0' ++ l).foldl (fun a c => 10 * a + digitVal c) 0 := by
      simp [digitsVal, List.replicate_succ, digitVal]
    rw [this]
    exact ih

theorem digitsVal_padStart3 (l : List Char) :
    digitsVal (padStart3 l) = digitsVal l :=
  digitsVal_replicate_zero _ _

theorem todoNameOf_inj {m n : Nat} (h : todoNameOf m = todoNameOf n) : m = n := by
  have hd : ("Todo").data ++ (padStart3 (decChars m) ++ ("Union").data)
      = ("Todo").data ++ (padStart3 (decChars n) ++ ("Union").data) := by
    have := congrArg String.data h
    simpa [todoNameOf, String.data_append] using this
  have h2 := List.append_cancel_left hd
  have h3 := List.append_cancel_right h2
  have := congrArg digitsVal h3
  rwa [digitsVal_padStart3, digitsVal_padStart3, digitsVal_decChars,
    digitsVal_decChars] at this

/-! ## The JSON string body round trip -/

theorem parseJsonString2_rt (l : List Char) (rest : List Char) :
    parseJsonString2 (l.flatMap escapeJsonChar ++ '"' :: rest) = some (l, rest) := by
  induction l with
  | nil => rfl
  | cons c cs ih =>
    show parseJsonString2 ((escapeJsonChar c ++ cs.flatMap escapeJsonChar) ++ '"' :: rest)
      = some (c :: cs, rest)
    by_cases h1 : c = '"'
    · subst h1; simp [escapeJsonChar, parseJsonString2, parseJsonEsc, ih]
    by_cases h2 : c = '\\'
    · subst h2; simp [escapeJsonChar, parseJsonString2, parseJsonEsc, ih]
    by_cases h3 : c = '\x08'
    · subst h3; simp [escapeJsonChar, parseJsonString2, parseJsonEsc, ih]
    by_cases h4 : c = '\t'
    · subst h4; simp [escapeJsonChar, parseJsonString2, parseJsonEsc, ih]
    by_cases h5 : c = '\n'
    · subst h5; simp [escapeJsonChar, parseJsonString2, parseJsonEsc, ih]
    by_cases h6 : c = '\x0c'
    · subst h6; simp [escapeJsonChar, parseJsonString2, parseJsonEsc, ih]
    by_cases h7 : c = '\r'
    · subst h7; simp [escapeJsonChar, parseJsonString2, parseJsonEsc, ih]
    by_cases h8 : c.toNat < 32
    · have he : escapeJsonChar c =
          ['\\', 'u', '0', '0', hexDigitChar (c.toNat / 16), hexDigitChar (c.toNat % 16)] := by
        simp [escapeJsonChar, h1, h2, h3, h4, h5, h6, h7, h8]
      rw [he]
      have h16a : c.toNat / 16 < 16 := by omega
      have h16b : c.toNat % 16 < 16 := by omega
      have hc : 16 * (c.toNat / 16) + c.toNat % 16 = c.toNat := by omega
      simp [parseJsonString2, parseJsonEsc, parseJsonUEsc,
        hexVal_hexDigitChar _ h16a, hexVal_hexDigitChar _ h16b, ih, hc,
        Char.ofNat_toNat]
    · have he : escapeJsonChar c = [c] := by
        simp [escapeJsonChar, h1, h2, h3, h4, h5, h6, h7, h8]
      rw [he]
      show parseJsonString2 (c :: (cs.flatMap escapeJsonChar ++ '"' :: rest)) = _
      simp [parseJsonString2, h1, h2, ih]

/-! ## Round trip of the IR serializer through the verification parser -/

theorem one_le_irMeasure (v : RustTypeIR) : 1 ≤ irMeasure v := by
  cases v <;> simp only [irMeasure] <;> omega

theorem decodePrim_text (p : PrimName) : decodePrimName p.text.data = some p := by
  cases p <;> rfl

theorem dk_primitive : decodeKind wPrimitive = some .primitiveK := rfl

theorem dk_array : decodeKind wArray = some .arrayK := rfl

theorem dk_tuple : decodeKind wTuple = some .tupleK := rfl

theorem dk_union : decodeKind wUnion = some .unionK := rfl

theorem dk_named : decodeKind wNamed = some .namedK := rfl

theorem dk_generic : decodeKind wGeneric = some .genericK := rfl

theorem dk_option : decodeKind wOption = some .optionK := rfl

theorem dk_js_value : decodeKind wJsValue = some .jsValueK := rfl

theorem chRBrace_cons (X : List Char) : chRBrace ++ X = '\x7d' :: X := rfl

theorem chRBracketBrace_cons (X : List Char) :
    chRBracketBrace ++ X = ']' :: '\x7d' :: X := rfl

theorem pjs_kind_primitive (X : List Char) :
    parseJsonString2 (chPrimitiveQ ++ X) = some (wPrimitive, X) := by
  have hc : chPrimitiveQ = "primitive".data.flatMap escapeJsonChar ++ ['"'] := by decide
  rw [hc, List.append_assoc, List.singleton_append, parseJsonString2_rt]
  rfl

theorem pjs_kind_array (X : List Char) :
    parseJsonString2 (chArrayQ ++ X) = some (wArray, X) := by
  have hc : chArrayQ = "array".data.flatMap escapeJsonChar ++ ['"'] := by decide
  rw [hc, List.append_assoc, List.singleton_append, parseJsonString2_rt]
  rfl

theorem pjs_kind_tuple (X : List Char) :
    parseJsonString2 (chTupleQ ++ X) = some (wTuple, X) := by
  have hc : chTupleQ = "tuple".data.flatMap escapeJsonChar ++ ['"'] := by decide
  rw [hc, List.append_assoc, List.singleton_append, parseJsonString2_rt]
  rfl

theorem pjs_kind_union (X : List Char) :
    parseJsonString2 (chUnionQ ++ X) = some (wUnion, X) := by
  have hc : chUnionQ = "union".data.flatMap escapeJsonChar ++ ['"'] := by decide
  rw [hc, List.append_assoc, List.singleton_append, parseJsonString2_rt]
  rfl

theorem pjs_kind_named (X : List Char) :
    parseJsonString2 (chNamedQ ++ X) = some (wNamed, X) := by
  have hc : chNamedQ = "named".data.flatMap escapeJsonChar ++ ['"'] := by decide
  rw [hc, List.append_assoc, List.singleton_append, parseJsonString2_rt]
  rfl

theorem pjs_kind_generic (X : List Char) :
    parseJsonString2 (chGenericQ ++ X) = some (wGeneric, X) := by
  have hc : chGenericQ = "generic".data.flatMap escapeJsonChar ++ ['"'] := by decide
  rw [hc, List.append_assoc, List.singleton_append, parseJsonString2_rt]
  rfl

theorem pjs_kind_option (X : List Char) :
    parseJsonString2 (chOptionQ ++ X) = some (wOption, X) := by
  have hc : chOptionQ = "option".data.flatMap escapeJsonChar ++ ['"'] := by decide
  rw [hc, List.append_assoc, List.singleton_append, parseJsonString2_rt]
  rfl

theorem pjs_kind_js_value (X : List Char) :
    parseJsonString2 (chJsValueQ ++ X) = some (wJsValue, X) := by
  have hc : chJsValueQ = "js_value".data.flatMap escapeJsonChar ++ ['"'] := by decide
  rw [hc, List.append_assoc, List.singleton_append, parseJsonString2_rt]
  rfl

theorem pjs_body (s : String) (Z : List Char) :
    parseJsonString2 (jsonStrBody s ++ '"' :: Z) = some (s.data, Z) :=
  parseJsonString2_rt s.data Z

theorem expectPre_rbrace (X : List Char) :
    expectPre chRBrace ('\x7d' :: X) = some X :=
  expectPre_append "\x7d".data X

theorem expectPre_comma (X : List Char) :
    expectPre chComma (',' :: X) = some X :=
  expectPre_append ",".data X

theorem expectPre_rbracket (X : List Char) :
    expectPre chRBracket (']' :: X) = some X :=
  expectPre_append "]".data X

theorem expectPre_rbracket_brace (X : List Char) :
    expectPre chRBracketBrace (']' :: '\x7d' :: X) = some X :=
  expectPre_append "]\x7d".data X

theorem expectPre_pipe (X : List Char) :
    expectPre chPipe ('|' :: X) = some X :=
  expectPre_append "|".data X

theorem expectPre_size_not (X : List Char) :
    expectPre chSizeKey ('\x7d' :: X) = none := rfl

theorem expectPre_comma_not (X : List Char) :
    expectPre chComma (']' :: X) = none := rfl

theorem expectPre_rbb_kindHdr (X : List Char) :
    expectPre chRBracketBrace (chKindHdr ++ X) = none := by
  have h1 : chRBracketBrace = ']' :: "\x7d".data := by decide
  have h2 : chKindHdr = '\x7b' :: "\"kind\":\"".data := by decide
  rw [h1, h2]
  rfl

theorem expectPre_rbracket_json (v : RustTypeIR) (X : List Char) :
    expectPre chRBracketBrace (jsonIR v ++ X) = none := by
  cases v with
  | array e sz =>
    cases sz <;> rw [jsonIR, List.append_assoc] <;> exact expectPre_rbb_kindHdr _
  | primitive p => rw [jsonIR, List.append_assoc]; exact expectPre_rbb_kindHdr _
  | tuple es => rw [jsonIR, List.append_assoc]; exact expectPre_rbb_kindHdr _
  | union vs => rw [jsonIR, List.append_assoc]; exact expectPre_rbb_kindHdr _
  | named n => rw [jsonIR, List.append_assoc]; exact expectPre_rbb_kindHdr _
  | generic b args => rw [jsonIR, List.append_assoc]; exact expectPre_rbb_kindHdr _
  | option i => rw [jsonIR, List.append_assoc]; exact expectPre_rbb_kindHdr _
  | js_value => rw [jsonIR, List.append_assoc]; exact expectPre_rbb_kindHdr _

theorem expectPre_rbracket_join (v : RustTypeIR) (vs : List RustTypeIR) (X : List Char) :
    expectPre chRBracketBrace (joinSepC ',' (jsonIRList (v :: vs)) ++ X) = none := by
  cases vs with
  | nil =>
    rw [jsonIRList, jsonIRList, joinSepC]
    exact expectPre_rbracket_json v X
  | cons w t =>
    rw [jsonIRList, jsonIRList, joinSepC, List.append_assoc]
    exact expectPre_rbracket_json v _

theorem takeWhile_digits_append (l X : List Char) (h : l.all Char.isDigit = true) :
    (l ++ '\x7d' :: X).takeWhile Char.isDigit = l := by
  induction l with
  | nil => rfl
  | cons c cs ih =>
    simp only [List.all_cons, Bool.and_eq_true] at h
    simp [List.takeWhile_cons, h.1, ih h.2]

theorem dropWhile_digits_append (l X : List Char) (h : l.all Char.isDigit = true) :
    (l ++ '\x7d' :: X).dropWhile Char.isDigit = '\x7d' :: X := by
  induction l with
  | nil => rfl
  | cons c cs ih =>
    simp only [List.all_cons, Bool.and_eq_true] at h
    simp [List.dropWhile_cons, h.1, ih h.2]

theorem decChars_isEmpty (n : Nat) : (decChars n).isEmpty = false := by
  cases h : decChars n with
  | nil => exact absurd h (decChars_ne_nil n)
  | cons a l => rfl

/-! Parser-aligned decompositions of one serialized node followed by a
continuation. -/

theorem jshape_primitive (p : PrimName) (rest : List Char) :
    jsonIR (.primitive p) ++ rest =
      chKindHdr ++ (chPrimitiveQ ++ (chNameKey ++
        (jsonStrBody p.text ++ ('"' :: '\x7d' :: rest)))) := by
  rw [jsonIR]
  simp [List.append_assoc, chRBrace_cons, chRBracketBrace_cons]

theorem jshape_array_some (e : RustTypeIR) (n : Nat) (rest : List Char) :
    jsonIR (.array e (some n)) ++ rest =
      chKindHdr ++ (chArrayQ ++ (chElementKey ++
        (jsonIR e ++ (chSizeKey ++ (decChars n ++ ('\x7d' :: rest)))))) := by
  rw [jsonIR]
  simp [List.append_assoc, chRBrace_cons, chRBracketBrace_cons]

theorem jshape_array_none (e : RustTypeIR) (rest : List Char) :
    jsonIR (.array e none) ++ rest =
      chKindHdr ++ (chArrayQ ++ (chElementKey ++
        (jsonIR e ++ ('\x7d' :: rest)))) := by
  rw [jsonIR]
  simp [List.append_assoc, chRBrace_cons, chRBracketBrace_cons]

theorem jshape_tuple (es : List RustTypeIR) (rest : List Char) :
    jsonIR (.tuple es) ++ rest =
      chKindHdr ++ (chTupleQ ++ (chElementsKey ++
        (joinSepC ',' (jsonIRList es) ++ (']' :: '\x7d' :: rest)))) := by
  rw [jsonIR]
  simp [List.append_assoc, chRBrace_cons, chRBracketBrace_cons]

theorem jshape_union (vs : List RustTypeIR) (rest : List Char) :
    jsonIR (.union vs) ++ rest =
      chKindHdr ++ (chUnionQ ++ (chVariantsKey ++
        (joinSepC ',' (jsonIRList vs) ++ (']' :: '\x7d' :: rest)))) := by
  rw [jsonIR]
  simp [List.append_assoc, chRBrace_cons, chRBracketBrace_cons]

theorem jshape_named (n : String) (rest : List Char) :
    jsonIR (.named n) ++ rest =
      chKindHdr ++ (chNamedQ ++ (chNameKey ++
        (jsonStrBody n ++ ('"' :: '\x7d' :: rest)))) := by
  rw [jsonIR]
  simp [List.append_assoc, chRBrace_cons, chRBracketBrace_cons]

theorem jshape_generic (b : String) (args : List RustTypeIR) (rest : List Char) :
    jsonIR (.generic b args) ++ rest =
      chKindHdr ++ (chGenericQ ++ (chBaseKey ++
        (jsonStrBody b ++ ('"' :: (chArgsKey ++
          (joinSepC ',' (jsonIRList args) ++ (']' :: '\x7d' :: rest))))))) := by
  rw [jsonIR]
  simp [List.append_assoc, chRBrace_cons, chRBracketBrace_cons]

theorem jshape_option (i : RustTypeIR) (rest : List Char) :
    jsonIR (.option i) ++ rest =
      chKindHdr ++ (chOptionQ ++ (chInnerKey ++
        (jsonIR i ++ ('\x7d' :: rest)))) := by
  rw [jsonIR]
  simp [List.append_assoc, chRBrace_cons, chRBracketBrace_cons]

theorem jshape_js_value (rest : List Char) :
    jsonIR .js_value ++ rest =
      chKindHdr ++ (chJsValueQ ++ ('\x7d' :: rest)) := by
  rw [jsonIR]
  simp [List.append_assoc, chRBrace_cons, chRBracketBrace_cons]

mutual

theorem parseIR_rt (v : RustTypeIR) :
    ∀ (rest : List Char) (fuel : Nat), 2 * irMeasure v ≤ fuel →
      parseIR fuel (jsonIR v ++ rest) = some (v, rest) := by
  cases v with
  | primitive p =>
    intro rest fuel h
    cases fuel with
    | zero => simp only [irMeasure] at h; omega
    | succ f =>
      rw [jshape_primitive]
      simp only [parseIR, expectPre_append, pjs_kind_primitive, dk_primitive,
        pjs_body, decodePrim_text, expectPre_rbrace]
  | array e sz =>
    intro rest fuel h
    cases fuel with
    | zero => simp only [irMeasure] at h; omega
    | succ f =>
      simp only [irMeasure] at h
      cases sz with
      | some n =>
        rw [jshape_array_some]
        have ihe := parseIR_rt e (chSizeKey ++ (decChars n ++ ('\x7d' :: rest)))
          f (by have := one_le_irMeasure e; omega)
        have ht := takeWhile_digits_append (decChars n) rest (decCharsAux_all_digits _ _)
        have hd := dropWhile_digits_append (decChars n) rest (decCharsAux_all_digits _ _)
        simp only [parseIR, expectPre_append, pjs_kind_array, dk_array, ihe, ht, hd,
          decChars_isEmpty, expectPre_rbrace, digitsVal_decChars, Bool.false_eq_true,
          if_false]
      | none =>
        rw [jshape_array_none]
        have ihe := parseIR_rt e ('\x7d' :: rest) f (by have := one_le_irMeasure e; omega)
        simp only [parseIR, expectPre_append, pjs_kind_array, dk_array, ihe,
          expectPre_size_not, expectPre_rbrace]
  | tuple es =>
    intro rest fuel h
    cases fuel with
    | zero => simp only [irMeasure] at h; omega
    | succ f =>
      simp only [irMeasure] at h
      cases es with
      | nil =>
        rw [jshape_tuple, jsonIRList, joinSepC]
        simp only [parseIR, expectPre_append, pjs_kind_tuple, dk_tuple,
          List.nil_append, expectPre_rbracket_brace]
      | cons v vs =>
        rw [jshape_tuple]
        have ihes := parseIRElems_rt (v :: vs) ('\x7d' :: rest) f
          (by simp) (by simp only [irMeasureList] at h ⊢; omega)
        simp only [parseIR, expectPre_append, pjs_kind_tuple, dk_tuple,
          expectPre_rbracket_join, ihes, expectPre_rbrace]
  | union vs =>
    intro rest fuel h
    cases fuel with
    | zero => simp only [irMeasure] at h; omega
    | succ f =>
      simp only [irMeasure] at h
      cases vs with
      | nil =>
        rw [jshape_union, jsonIRList, joinSepC]
        simp only [parseIR, expectPre_append, pjs_kind_union, dk_union,
          List.nil_append, expectPre_rbracket_brace]
      | cons v vs' =>
        rw [jshape_union]
        have ihes := parseIRElems_rt (v :: vs') ('\x7d' :: rest) f
          (by simp) (by simp only [irMeasureList] at h ⊢; omega)
        simp only [parseIR, expectPre_append, pjs_kind_union, dk_union,
          expectPre_rbracket_join, ihes, expectPre_rbrace]
  | named n =>
    intro rest fuel h
    cases fuel with
    | zero => simp only [irMeasure] at h; omega
    | succ f =>
      rw [jshape_named]
      simp only [parseIR, expectPre_append, pjs_kind_named, dk_named, pjs_body,
        expectPre_rbrace, strMk_data]
  | generic b args =>
    intro rest fuel h
    cases fuel with
    | zero => simp only [irMeasure] at h; omega
    | succ f =>
      simp only [irMeasure] at h
      cases args with
      | nil =>
        rw [jshape_generic, jsonIRList, joinSepC]
        simp only [parseIR, expectPre_append, pjs_kind_generic, dk_generic,
          pjs_body, List.nil_append, expectPre_rbracket_brace, strMk_data]
      | cons v vs =>
        rw [jshape_generic]
        have ihes := parseIRElems_rt (v :: vs) ('\x7d' :: rest) f
          (by simp) (by simp only [irMeasureList] at h ⊢; omega)
        simp only [parseIR, expectPre_append, pjs_kind_generic, dk_generic,
          pjs_body, expectPre_rbracket_join, ihes, expectPre_rbrace, strMk_data]
  | option i =>
    intro rest fuel h
    cases fuel with
    | zero => simp only [irMeasure] at h; omega
    | succ f =>
      simp only [irMeasure] at h
      rw [jshape_option]
      have ihi := parseIR_rt i ('\x7d' :: rest) f (by omega)
      simp only [parseIR, expectPre_append, pjs_kind_option, dk_option, ihi,
        expectPre_rbrace]
  | js_value =>
    intro rest fuel h
    cases fuel with
    | zero => simp only [irMeasure] at h; omega
    | succ f =>
      rw [jshape_js_value]
      simp only [parseIR, expectPre_append, pjs_kind_js_value, dk_js_value,
        expectPre_rbrace]

theorem parseIRElems_rt (vs : List RustTypeIR) :
    ∀ (rest : List Char) (fuel : Nat), vs ≠ [] → 2 * irMeasureList vs + 1 ≤ fuel →
      parseIRElems fuel (joinSepC ',' (jsonIRList vs) ++ (']' :: rest)) = some (vs, rest) := by
  cases vs with
  | nil => intro rest fuel hne _; exact absurd rfl hne
  | cons v t =>
    intro rest fuel _ h
    cases fuel with
    | zero => simp only [irMeasureList] at h; omega
    | succ f =>
      simp only [irMeasureList] at h
      cases t with
      | nil =>
        rw [jsonIRList, jsonIRList, joinSepC]
        have ihv := parseIR_rt v (']' :: rest) f
          (by simp only [irMeasureList] at h; omega)
        simp only [parseIRElems, ihv, expectPre_comma_not, expectPre_rbracket]
      | cons w t2 =>
        rw [jsonIRList, jsonIRList, joinSepC, List.append_assoc, List.cons_append]
        have hmv := one_le_irMeasure v
        have ihv := parseIR_rt v
          (',' :: (joinSepC ',' (jsonIR w :: jsonIRList t2) ++ (']' :: rest))) f
          (by simp only [irMeasureList] at h; omega)
        have ihrec := parseIRElems_rt (w :: t2) rest f (by simp)
          (by simp only [irMeasureList] at h ⊢; omega)
        rw [jsonIRList] at ihrec
        simp only [parseIRElems, ihv, expectPre_comma, ihrec]

end

/-! ## Injectivity of the serializer; signatures are canonical multiset keys -/

theorem jsonIR_inj : Function.Injective jsonIR := by
  intro a b h
  have ha := parseIR_rt a [] (2 * irMeasure a + 2 * irMeasure b) (by omega)
  have hb := parseIR_rt b [] (2 * irMeasure a + 2 * irMeasure b) (by omega)
  rw [h] at ha
  have := ha.symm.trans hb
  simpa using this

instance : DecidableEq RustTypeIR := fun a b =>
  decidable_of_iff (jsonIR a = jsonIR b) ⟨fun h => jsonIR_inj h, fun h => by rw [h]⟩

theorem jsonIRList_eq_map (l : List RustTypeIR) : jsonIRList l = l.map jsonIR := by
  induction l with
  | nil => rfl
  | cons v vs ih => rw [jsonIRList, ih, List.map_cons]

theorem exists_jsonIRList_preimage :
    ∀ (L : List (List Char)), (∀ x ∈ L, ∃ w, x = jsonIR w) →
      ∃ ws, jsonIRList ws = L := by
  intro L
  induction L with
  | nil => exact fun _ => ⟨[], rfl⟩
  | cons x xs ih =>
    intro h
    obtain ⟨w, hw⟩ := h x (by simp)
    obtain ⟨ws, hws⟩ := ih (fun y hy => h y (by simp [hy]))
    exact ⟨w :: ws, by rw [jsonIRList, hws, hw]⟩

theorem append_kindHdr_ne_nil (X : List Char) : chKindHdr ++ X ≠ [] := by
  have h2 : chKindHdr = '\x7b' :: "\"kind\":\"".data := by decide
  rw [h2]
  simp

theorem jsonIR_ne_nil (v : RustTypeIR) : jsonIR v ≠ [] := by
  cases v with
  | array e sz => cases sz <;> rw [jsonIR] <;> exact append_kindHdr_ne_nil _
  | primitive p => rw [jsonIR]; exact append_kindHdr_ne_nil _
  | tuple es => rw [jsonIR]; exact append_kindHdr_ne_nil _
  | union vs => rw [jsonIR]; exact append_kindHdr_ne_nil _
  | named n => rw [jsonIR]; exact append_kindHdr_ne_nil _
  | generic b args => rw [jsonIR]; exact append_kindHdr_ne_nil _
  | option i => rw [jsonIR]; exact append_kindHdr_ne_nil _
  | js_value => rw [jsonIR]; exact append_kindHdr_ne_nil _

theorem parseSig_rt :
    ∀ (ws : List RustTypeIR) (fuel : Nat), 2 * irMeasureList ws < fuel →
      parseSigVariants fuel (joinSepC '|' (jsonIRList ws)) = some ws := by
  intro ws
  induction ws with
  | nil =>
    intro fuel _
    cases fuel <;> rfl
  | cons w t ih =>
    intro fuel h
    simp only [irMeasureList] at h
    have hmw := one_le_irMeasure w
    cases fuel with
    | zero => omega
    | succ f =>
      cases t with
      | nil =>
        rw [jsonIRList, jsonIRList, joinSepC]
        have hw := parseIR_rt w [] f (by simp only [irMeasureList] at h; omega)
        rw [List.append_nil] at hw
        rw [parseSigVariants.eq_3 (jsonIR w) f (fun hh => jsonIR_ne_nil w hh)]
        simp only [hw]
      | cons w2 t2 =>
        rw [jsonIRList, jsonIRList, joinSepC]
        have hw := parseIR_rt w ('|' :: joinSepC '|' (jsonIR w2 :: jsonIRList t2)) f
          (by simp only [irMeasureList] at h; omega)
        have hrec := ih f (by simp only [irMeasureList] at h ⊢; omega)
        rw [jsonIRList] at hrec
        rw [parseSigVariants.eq_3 _ f
          (fun hh => jsonIR_ne_nil w (List.append_eq_nil.mp hh).1)]
        simp only [hw, expectPre_pipe, hrec]

/-! ### The code-point lexicographic order used to canonicalize signatures -/

theorem lexLeB_total : ∀ a b : List Char, lexLeB a b = true ∨ lexLeB b a = true := by
  intro a
  induction a with
  | nil => intro b; left; rfl
  | cons x xs ih =>
    intro b
    cases b with
    | nil => right; rfl
    | cons y ys =>
      rcases Nat.lt_trichotomy x.toNat y.toNat with hlt | heq | hgt
      · left; simp [lexLeB, hlt]
      · rcases ih ys with h | h
        · left; simp [lexLeB, heq, h]
        · right; simp [lexLeB, heq, h]
      · right; simp [lexLeB, hgt]

theorem char_toNat_inj {a b : Char} (h : a.toNat = b.toNat) : a = b := by
  have ha := (Char.ofNat_toNat a).symm
  rw [ha, h, Char.ofNat_toNat]

theorem lexLeB_cons_iff (x y : Char) (xs ys : List Char) :
    lexLeB (x :: xs) (y :: ys) = true ↔
      x.toNat < y.toNat ∨ (x.toNat = y.toNat ∧ lexLeB xs ys = true) := by
  by_cases h1 : x.toNat < y.toNat
  · simp [lexLeB, h1]
  · by_cases h2 : y.toNat < x.toNat
    · constructor
      · intro hh
        simp [lexLeB, h1, h2] at hh
      · intro hh
        rcases hh with hh | ⟨hh, _⟩
        · omega
        · omega
    · have hxy : x.toNat = y.toNat := by omega
      simp [lexLeB, h1, h2, hxy]

theorem lexLeB_antisymm :
    ∀ a b : List Char, lexLeB a b = true → lexLeB b a = true → a = b := by
  intro a
  induction a with
  | nil =>
    intro b _ hba
    cases b with
    | nil => rfl
    | cons y ys => simp [lexLeB] at hba
  | cons x xs ih =>
    intro b hab hba
    cases b with
    | nil => simp [lexLeB] at hab
    | cons y ys =>
      rw [lexLeB_cons_iff] at hab hba
      rcases hab with h1 | ⟨h1, h1'⟩
      · rcases hba with h2 | ⟨h2, _⟩
        · omega
        · omega
      · rcases hba with h2 | ⟨h2, h2'⟩
        · omega
        · rw [char_toNat_inj h1, ih ys h1' h2']

theorem lexLeB_trans :
    ∀ a b c : List Char, lexLeB a b = true → lexLeB b c = true → lexLeB a c = true := by
  intro a
  induction a with
  | nil => intro b c _ _; rfl
  | cons x xs ih =>
    intro b c hab hbc
    cases b with
    | nil => simp [lexLeB] at hab
    | cons y ys =>
      cases c with
      | nil => simp [lexLeB] at hbc
      | cons z zs =>
        rw [lexLeB_cons_iff] at hab hbc ⊢
        rcases hab with h1 | ⟨h1, h1'⟩
        · rcases hbc with h2 | ⟨h2, _⟩
          · left; omega
          · left; omega
        · rcases hbc with h2 | ⟨h2, h2'⟩
          · left; omega
          · right; exact ⟨by omega, ih ys zs h1' h2'⟩

instance lexLeR_total : IsTotal (List Char) (fun a b => lexLeB a b = true) :=
  ⟨lexLeB_total⟩

instance lexLeR_trans : IsTrans (List Char) (fun a b => lexLeB a b = true) :=
  ⟨lexLeB_trans⟩

instance lexLeR_antisymm : IsAntisymm (List Char) (fun a b => lexLeB a b = true) :=
  ⟨lexLeB_antisymm⟩

theorem sortedSigs_perm (l : List (List Char)) : (sortedSigs l).Perm l :=
  List.perm_insertionSort _ l

theorem sortedSigs_sorted (l : List (List Char)) :
    List.Sorted (fun a b => lexLeB a b = true) (sortedSigs l) :=
  List.sorted_insertionSort _ l

theorem sortedSigs_eq_of_perm {l1 l2 : List (List Char)} (h : l1.Perm l2) :
    sortedSigs l1 = sortedSigs l2 :=
  List.eq_of_perm_of_sorted
    ((sortedSigs_perm l1).trans (h.trans (sortedSigs_perm l2).symm))
    (sortedSigs_sorted l1) (sortedSigs_sorted l2)

/-- Permutation-equal variant lists produce the same signature: the sort makes
the signature independent of variant order. -/
theorem variantSignature_eq_of_perm {v1 v2 : List RustTypeIR} (h : v1.Perm v2) :
    variantSignature v1 = variantSignature v2 := by
  unfold variantSignature
  rw [sortedSigs_eq_of_perm (h.map jsonIR)]

/-- Signature equality implies the variant lists are permutations of each
other: the signature is injective up to variant order. -/
theorem perm_of_variantSignature_eq {v1 v2 : List RustTypeIR}
    (h : variantSignature v1 = variantSignature v2) : v1.Perm v2 := by
  have hdata : joinSepC '|' (sortedSigs (v1.map jsonIR))
      = joinSepC '|' (sortedSigs (v2.map jsonIR)) := congrArg String.data h
  obtain ⟨ws1, hws1⟩ := exists_jsonIRList_preimage (sortedSigs (v1.map jsonIR))
    (fun x hx => by
      have hx' : x ∈ v1.map jsonIR := (sortedSigs_perm _).mem_iff.mp hx
      obtain ⟨w, _, hw⟩ := List.mem_map.mp hx'
      exact ⟨w, hw.symm⟩)
  obtain ⟨ws2, hws2⟩ := exists_jsonIRList_preimage (sortedSigs (v2.map jsonIR))
    (fun x hx => by
      have hx' : x ∈ v2.map jsonIR := (sortedSigs_perm _).mem_iff.mp hx
      obtain ⟨w, _, hw⟩ := List.mem_map.mp hx'
      exact ⟨w, hw.symm⟩)
  have hp1 := parseSig_rt ws1 (2 * (irMeasureList ws1 + irMeasureList ws2) + 1) (by omega)
  have hp2 := parseSig_rt ws2 (2 * (irMeasureList ws1 + irMeasureList ws2) + 1) (by omega)
  rw [hws1, hdata, ← hws2] at hp1
  have hws : ws1 = ws2 := by
    have := hp1.symm.trans hp2
    simpa using this
  have hS : sortedSigs (v1.map jsonIR) = sortedSigs (v2.map jsonIR) := by
    rw [← hws1, ← hws2, hws]
  have hmaps : (v1.map jsonIR).Perm (v2.map jsonIR) :=
    ((sortedSigs_perm _).symm.trans (hS ▸ sortedSigs_perm _))
  have hmult : (v1.map jsonIR : Multiset (List Char)) = (v2.map jsonIR : Multiset (List Char)) :=
    Multiset.coe_eq_coe.mpr hmaps
  have : (v1 : Multiset RustTypeIR) = (v2 : Multiset RustTypeIR) := by
    apply Multiset.map_injective jsonIR_inj
    simpa using hmult
  exact Multiset.coe_eq_coe.mp this

/-! ## Association-list map lemmas -/

theorem mapGet_mapSet_self {α : Type} (m : List (String × α)) (k : String) (v : α) :
    mapGet (mapSet m k v) k = some v := by
  induction m with
  | nil => simp [mapSet, mapGet, List.find?]
  | cons p t ih =>
    obtain ⟨pk, pv⟩ := p
    by_cases h : pk = k
    · simp [mapSet, mapGet, List.find?, h]
    · have hb : (pk == k) = false := beq_eq_false_iff_ne.mpr h
      simp only [mapSet, hb, if_false, mapGet, List.find?, hb]
      exact ih

theorem mapGet_mapSet_other {α : Type} (m : List (String × α)) (k k' : String) (v : α)
    (h : k' ≠ k) : mapGet (mapSet m k v) k' = mapGet m k' := by
  have hkk : (k == k') = false := beq_eq_false_iff_ne.mpr (Ne.symm h)
  induction m with
  | nil => simp [mapSet, mapGet, List.find?, hkk]
  | cons p t ih =>
    obtain ⟨pk, pv⟩ := p
    by_cases hp : pk = k
    · have hb : (pk == k) = true := beq_iff_eq.mpr hp
      have hb3 : (pk == k') = false := by rw [hp]; exact hkk
      simp [mapSet, hb, mapGet, List.find?, hkk, hb3]
    · have hb : (pk == k) = false := beq_eq_false_iff_ne.mpr hp
      by_cases hq : pk = k'
      · have hb2 : (pk == k') = true := beq_iff_eq.mpr hq
        simp [mapSet, hb, mapGet, List.find?, hb2]
      · have hb2 : (pk == k') = false := beq_eq_false_iff_ne.mpr hq
        simp only [mapSet, hb, if_false, mapGet, List.find?, hb2]
        exact ih

theorem mapGet_mem {α : Type} {m : List (String × α)} {k : String} {v : α}
    (h : mapGet m k = some v) : (k, v) ∈ m := by
  induction m with
  | nil => simp [mapGet, List.find?] at h
  | cons p t ih =>
    obtain ⟨pk, pv⟩ := p
    by_cases hp : pk = k
    · have hb : (pk == k) = true := beq_iff_eq.mpr hp
      simp [mapGet, List.find?, hb] at h
      subst hp
      rw [← h]
      exact List.mem_cons_self _ _
    · have hb : (pk == k) = false := beq_eq_false_iff_ne.mpr hp
      simp only [mapGet, List.find?, hb] at h
      exact List.mem_cons_of_mem _ (ih h)

theorem mapSet_of_not_has {α : Type} (m : List (String × α)) (k : String) (v : α)
    (h : mapGet m k = none) : mapSet m k v = m ++ [(k, v)] := by
  induction m with
  | nil => rfl
  | cons p t ih =>
    obtain ⟨pk, pv⟩ := p
    by_cases hp : pk = k
    · have hb : (pk == k) = true := beq_iff_eq.mpr hp
      simp [mapGet, List.find?, hb] at h
    · have hb : (pk == k) = false := beq_eq_false_iff_ne.mpr hp
      simp only [mapGet, List.find?, hb] at h
      simp only [mapSet, hb, Bool.false_eq_true, if_false, List.cons_append]
      rw [ih h]

theorem mapSet_keys {α : Type} (m : List (String × α)) (k : String) (v : α) :
    (mapSet m k v).map Prod.fst =
      if mapHas m k then m.map Prod.fst else m.map Prod.fst ++ [k] := by
  induction m with
  | nil => simp [mapSet, mapHas]
  | cons p t ih =>
    obtain ⟨pk, pv⟩ := p
    by_cases hp : pk = k
    · have hb : (pk == k) = true := beq_iff_eq.mpr hp
      simp [mapSet, mapHas, hb, hp]
    · have hb : (pk == k) = false := beq_eq_false_iff_ne.mpr hp
      simp only [mapSet, hb, Bool.false_eq_true, if_false, List.map_cons, mapHas,
        List.any_cons, Bool.or_eq_true, false_or]
      rw [ih]
      simp only [mapHas]
      by_cases ht : (t.any fun q => q.1 == k) = true
      · simp [ht, hb]
      · simp [ht, hb]

theorem mapHas_iff_mem_keys {α : Type} (m : List (String × α)) (k : String) :
    mapHas m k = true ↔ k ∈ m.map Prod.fst := by
  simp only [mapHas, List.any_eq_true, List.mem_map]
  constructor
  · rintro ⟨p, hp, he⟩
    exact ⟨p, hp, (beq_iff_eq.mp he)⟩
  · rintro ⟨p, hp, he⟩
    exact ⟨p, hp, beq_iff_eq.mpr he⟩

theorem mapSet_keys_nodup {α : Type} (m : List (String × α)) (k : String) (v : α)
    (h : (m.map Prod.fst).Nodup) : ((mapSet m k v).map Prod.fst).Nodup := by
  rw [mapSet_keys]
  by_cases hh : mapHas m k = true
  · simp [hh, h]
  · have hk : k ∉ m.map Prod.fst := fun hmem =>
      hh ((mapHas_iff_mem_keys m k).mpr hmem)
    simp only [hh, if_false]
    simp [List.nodup_append, h, hk]

/-! ## Behaviour of the deduplicator state machine -/

/-- Invariant maintained by the deduplicator within one run: every cached
placeholder name was minted from an earlier counter value, and distinct
signatures hold distinct names. -/
def TodoWF (st : TodoState) : Prop :=
  (∀ p ∈ st.todoUnionCache, ∃ i, i < st.todoUnionCounter ∧ p.2 = todoNameOf i) ∧
  (∀ p ∈ st.todoUnionCache, ∀ q ∈ st.todoUnionCache, p.2 = q.2 → p.1 = q.1)

theorem todoWF_init : TodoWF initTodoState := by
  constructor
  · intro p hp; simp [initTodoState] at hp
  · intro p hp; simp [initTodoState] at hp

theorem todoWF_step (st : TodoState) (h : TodoWF st) (variants : List RustTypeIR) :
    TodoWF (getOrCreateTodoUnionName variants st).2 := by
  simp only [getOrCreateTodoUnionName]
  cases hc : mapGet st.todoUnionCache (variantSignature variants) with
  | some nm => simp only [hc]; exact h
  | none =>
    simp only [hc]
    rw [mapSet_of_not_has _ _ _ hc]
    dsimp only [TodoWF]
    constructor
    · intro p hp
      rcases List.mem_append.mp hp with hp | hp
      · obtain ⟨i, hi, he⟩ := h.1 p hp
        exact ⟨i, by omega, he⟩
      · simp only [List.mem_singleton] at hp
        exact ⟨st.todoUnionCounter, by omega, by rw [hp]⟩
    · intro p hp q hq he
      rcases List.mem_append.mp hp with hp | hp <;>
        rcases List.mem_append.mp hq with hq | hq
      · exact h.2 p hp q hq he
      · obtain ⟨i, hi, hei⟩ := h.1 p hp
        simp only [List.mem_singleton] at hq
        rw [hq] at he
        rw [hei] at he
        have := todoNameOf_inj he
        omega
      · obtain ⟨i, hi, hei⟩ := h.1 q hq
        simp only [List.mem_singleton] at hp
        rw [hp] at he
        rw [hei] at he
        have := todoNameOf_inj he.symm
        omega
      · simp only [List.mem_singleton] at hp hq
        rw [hp, hq]

/-- Re-encountering a permutation of the same variant list (at any later
point of the run, here immediately after) yields the very same placeholder
name. -/
theorem getOrCreate_same_of_perm (st : TodoState) (v1 v2 : List RustTypeIR)
    (hperm : v1.Perm v2) :
    (getOrCreateTodoUnionName v2 (getOrCreateTodoUnionName v1 st).2).1
      = (getOrCreateTodoUnionName v1 st).1 := by
  have hsig : variantSignature v2 = variantSignature v1 :=
    variantSignature_eq_of_perm hperm.symm
  simp only [getOrCreateTodoUnionName]
  cases hc : mapGet st.todoUnionCache (variantSignature v1) with
  | some nm => simp only [hsig, hc]
  | none =>
    simp only [hsig, hc]
    simp [mapGet_mapSet_self]

/-- A union whose variant multiset is structurally distinct receives a
different placeholder name. -/
theorem getOrCreate_distinct_of_not_perm (st : TodoState) (h : TodoWF st)
    (v1 v3 : List RustTypeIR) (hnp : ¬ v1.Perm v3) :
    (getOrCreateTodoUnionName v3 (getOrCreateTodoUnionName v1 st).2).1
      ≠ (getOrCreateTodoUnionName v1 st).1 := by
  have hsig : variantSignature v3 ≠ variantSignature v1 := fun he =>
    hnp (perm_of_variantSignature_eq he.symm)
  simp only [getOrCreateTodoUnionName]
  cases hc1 : mapGet st.todoUnionCache (variantSignature v1) with
  | some n1 =>
    simp only [hc1]
    cases hc3 : mapGet st.todoUnionCache (variantSignature v3) with
    | some n3 =>
      simp only [hc3]
      intro he
      exact hsig (h.2 _ (mapGet_mem hc3) _ (mapGet_mem hc1) he)
    | none =>
      simp only [hc3]
      obtain ⟨i, hi, hei⟩ := h.1 _ (mapGet_mem hc1)
      intro he
      rw [show n1 = todoNameOf i from hei] at he
      have := todoNameOf_inj he
      omega
  | none =>
    simp only [hc1]
    have hset := mapSet_of_not_has st.todoUnionCache (variantSignature v1)
      (todoNameOf st.todoUnionCounter) hc1
    cases hc3 : mapGet (mapSet st.todoUnionCache (variantSignature v1)
        (todoNameOf st.todoUnionCounter)) (variantSignature v3) with
    | some n3 =>
      simp only [hc3]
      rw [hset] at hc3
      have hmem := mapGet_mem hc3
      rcases List.mem_append.mp hmem with hm | hm
      · obtain ⟨i, hi, hei⟩ := h.1 _ hm
        intro he
        rw [show n3 = todoNameOf i from hei] at he
        have := todoNameOf_inj he
        omega
      · simp at hm
        exact absurd hm.1 hsig
    | none =>
      simp only [hc3]
      intro he
      have := todoNameOf_inj he
      omega


/-! ## Claim C10: the shared todo-unions artifact is conditional -/

/-- C10: if no irreducible union was registered during a run (the todo-type
registry is empty at emission time), `generateTodoUnionsFile` writes nothing;
when at least one placeholder union was registered it produces the
`todo_unions.rs` artifact. -/
theorem C10_todo_unions_only_when_nonempty (st : TodoState) :
    (st.todoTypes = [] → (generateTodoUnionsFile st).1 = none) ∧
    (st.todoTypes ≠ [] →
      ∃ body st', generateTodoUnionsFile st = (some ("todo_unions.rs", body), st')) := by
  constructor
  · intro h
    simp [generateTodoUnionsFile, h]
  · intro h
    have hlen : (st.todoTypes.length == 0) = false := by
      simp only [beq_eq_false_iff_ne, ne_eq, List.length_eq_zero]
      exact h
    simp only [generateTodoUnionsFile, hlen, Bool.false_eq_true, if_false]
    exact ⟨_, _, rfl⟩

/-- C10 witness: the initial state writes no artifact; a state holding one
registered placeholder union produces `todo_unions.rs`. -/
theorem C10_witness :
    (initTodoState.todoTypes = [] ∧
      (generateTodoUnionsFile initTodoState).1 = none) ∧
    ((⟨2, [], [("Todo001Union", [RustTypeIR.named "A"])]⟩ : TodoState).todoTypes ≠ [] ∧
      ∃ body st', generateTodoUnionsFile
          (⟨2, [], [("Todo001Union", [RustTypeIR.named "A"])]⟩ : TodoState)
        = (some ("todo_unions.rs", body), st')) :=
  ⟨⟨rfl, (C10_todo_unions_only_when_nonempty initTodoState).1 rfl⟩,
    ⟨by decide,
      (C10_todo_unions_only_when_nonempty _).2 (by decide)⟩⟩

/-! ## Claim C8: artifact categorization -/

/-- C8: `getFilePrefix` strips `.d.ts` from the basename and matches it in
order: a name containing "manifold-global-types" maps to the global category,
otherwise one containing "manifold-encapsulated-types" maps to the
encapsulated category, otherwise one containing "manifold" maps to the main
category, and any other name is a fatal "Unknown file" error. -/
theorem C8_getFilePrefix_categorization (path : String) :
    (jsIncludes (basenameStrip path ".d.ts") "manifold-global-types" = true →
      getFilePrefix path = .ok .Global) ∧
    (jsIncludes (basenameStrip path ".d.ts") "manifold-global-types" = false →
      jsIncludes (basenameStrip path ".d.ts") "manifold-encapsulated-types" = true →
      getFilePrefix path = .ok .Encapsulated) ∧
    (jsIncludes (basenameStrip path ".d.ts") "manifold-global-types" = false →
      jsIncludes (basenameStrip path ".d.ts") "manifold-encapsulated-types" = false →
      jsIncludes (basenameStrip path ".d.ts") "manifold" = true →
      getFilePrefix path = .ok .Manifold) ∧
    (jsIncludes (basenameStrip path ".d.ts") "manifold-global-types" = false →
      jsIncludes (basenameStrip path ".d.ts") "manifold-encapsulated-types" = false →
      jsIncludes (basenameStrip path ".d.ts") "manifold" = false →
      getFilePrefix path = .error ("Unknown file: " ++ path)) := by
  refine ⟨fun h1 => ?_, fun h1 h2 => ?_, fun h1 h2 h3 => ?_, fun h1 h2 h3 => ?_⟩ <;>
    simp_all [getFilePrefix]

/-- C8 witness: a global-types artifact is categorized global and an unknown
artifact raises the fatal error. -/
theorem C8_witness :
    (jsIncludes (basenameStrip "manifold-global-types.d.ts" ".d.ts")
        "manifold-global-types" = true ∧
      getFilePrefix "manifold-global-types.d.ts" = .ok .Global) ∧
    (jsIncludes (basenameStrip "other.d.ts" ".d.ts") "manifold-global-types" = false ∧
      jsIncludes (basenameStrip "other.d.ts" ".d.ts") "manifold-encapsulated-types" = false ∧
      jsIncludes (basenameStrip "other.d.ts" ".d.ts") "manifold" = false ∧
      getFilePrefix "other.d.ts" = .error ("Unknown file: " ++ "other.d.ts")) :=
  ⟨⟨by decide, (C8_getFilePrefix_categorization "manifold-global-types.d.ts").1 (by decide)⟩,
    ⟨by decide, by decide, by decide,
      (C8_getFilePrefix_categorization "other.d.ts").2.2.2 (by decide) (by decide) (by decide)⟩⟩

/-! ## Claim C7: the primitive table and the absent-type rule -/

/-- Whenever the trimmed text of a type hits the primitive table, the lowering
engine returns the table entry before inspecting the type shape. -/
theorem convert_of_primitive (reg : Registry) (t : Ty) (p : RustTypeIR)
    (hp : convertPrimitiveToIR (jsTrim t.getText) = some p) :
    convertTypeToRustIR reg t = p := by
  cases t <;> rw [convertTypeToRustIR] <;> simp only [Ty.getText] at hp ⊢ <;> rw [hp]

/-- C7: for primitive source-type texts the engine returns the fixed table
entry — string to the String primitive, number to f64, boolean to bool, and
void and undefined both to the unit primitive — and a missing type input
lowers to the unit primitive rather than an error. -/
theorem C7_primitive_table (reg : Registry) (t : Ty) (s : String)
    (h : jsTrim t.getText = s) :
    ((s = "string" → convertTypeToRustIR reg t = .primitive .str) ∧
     (s = "number" → convertTypeToRustIR reg t = .primitive .f64) ∧
     (s = "boolean" → convertTypeToRustIR reg t = .primitive .bool) ∧
     (s = "void" → convertTypeToRustIR reg t = .primitive .unit) ∧
     (s = "undefined" → convertTypeToRustIR reg t = .primitive .unit)) ∧
    convertTypeToRustIROpt reg none = .primitive .unit := by
  refine ⟨⟨fun hs => ?_, fun hs => ?_, fun hs => ?_, fun hs => ?_, fun hs => ?_⟩, rfl⟩ <;>
    (apply convert_of_primitive; rw [h, hs]; rfl)

/-- C7 witness: a type whose text is `number` lowers to the f64 primitive and
the absent type input lowers to the unit primitive. -/
theorem C7_witness :
    jsTrim (Ty.otherT "number").getText = "number" ∧
    convertTypeToRustIR [] (.otherT "number") = .primitive .f64 ∧
    convertTypeToRustIROpt [] none = .primitive .unit :=
  ⟨rfl, (C7_primitive_table [] (.otherT "number") "number" rfl).1.2.1 rfl,
    (C7_primitive_table [] (.otherT "number") "number" rfl).2⟩


/-! ## Claim C4: totality and degradation of the lowering engine -/

/-- The textual fallback of the conversion always produces a `named` node. -/
theorem convertFallback_named (reg : Registry) (text : String) :
    ∃ nm, convertFallback reg text = .named nm := by
  simp only [convertFallback]
  repeat' first
  | exact ⟨_, rfl⟩
  | split

/-- C4: the lowering engine is total by construction (its codomain is the IR
itself, with no error outcome), and a shape that is not primitive text, not an
array, not a tuple and not a union always degrades to a `named` placeholder
result instead of failing. -/
theorem C4_unsupported_shape_degrades (reg : Registry) (t : Ty)
    (hp : convertPrimitiveToIR (jsTrim t.getText) = none)
    (ha : t.isArray = false) (ht : t.isTuple = false) (hu : t.isUnion = false) :
    ∃ nm, convertTypeToRustIR reg t = .named nm := by
  cases t with
  | arrayT e txt => simp [Ty.isArray] at ha
  | tupleT es txt => simp [Ty.isTuple] at ht
  | unionT ms txt => simp [Ty.isUnion] at hu
  | otherT txt =>
    rw [convertTypeToRustIR]
    simp only [Ty.getText] at hp ⊢
    rw [hp]
    exact convertFallback_named reg (jsTrim txt)

/-- C4 witness: an unknown class-like name lowers to a `named` placeholder. -/
theorem C4_witness :
    convertPrimitiveToIR (jsTrim (Ty.otherT "SomeUnknown").getText) = none ∧
    (Ty.otherT "SomeUnknown").isArray = false ∧
    (Ty.otherT "SomeUnknown").isTuple = false ∧
    (Ty.otherT "SomeUnknown").isUnion = false ∧
    ∃ nm, convertTypeToRustIR [] (.otherT "SomeUnknown") = .named nm :=
  ⟨by decide, rfl, rfl, rfl,
    C4_unsupported_shape_degrades [] (.otherT "SomeUnknown") (by decide) rfl rfl rfl⟩

/-! ## Claim C5: encapsulated classes become extern blocks -/

/-- Reduction of an `Except.ok` bind. -/
theorem except_bind_ok {β γ : Type} (x : β) (g : β → Except String γ) :
    ((Except.ok x : Except String β) >>= g) = g x := rfl

/-- Reduction of an `Except.error` bind. -/
theorem except_bind_error {β γ : Type} (e : String) (g : β → Except String γ) :
    ((Except.error e : Except String β) >>= g) = .error e := rfl

/-- C5: a class of the encapsulated category lowers to an `ExternBlock` whose
method list is exactly: one constructor-kind descriptor named "new" per
declared constructor, returning the class's own name, followed by one
static-kind descriptor per static method and one instance-kind descriptor per
instance method, with every argument and return type lowered by the type
engine. -/
theorem C5_encapsulated_class_extern_block (reg : Registry) (filePath : String)
    (name : String) (c : SrcClassDecl) (hn : c.name = some name)
    (hf : getFilePrefix filePath = .ok .Encapsulated) :
    processClass reg filePath c = .ok (some (.extern_block name
      (c.ctors.map (fun params =>
        ⟨"new", params.map (fun p =>
          ⟨convertToSnakeCase p.name, convertTypeToRustIR reg p.type, none⟩),
          .named name, .constructorKind⟩)
      ++ c.staticMethods.map (fun m =>
        ⟨convertToSnakeCase m.name, m.params.map (fun p =>
          ⟨convertToSnakeCase p.name, convertTypeToRustIR reg p.type, none⟩),
          convertTypeToRustIR reg m.returnType, .staticKind⟩)
      ++ c.methods.map (fun m =>
        ⟨convertToSnakeCase m.name, m.params.map (fun p =>
          ⟨convertToSnakeCase p.name, convertTypeToRustIR reg p.type, none⟩),
          convertTypeToRustIR reg m.returnType, .instanceKind⟩)))) := by
  unfold processClass
  rw [hn, hf]
  rfl

/-- C5 witness: the `Box` class with constructor `(width: number,
height: number)` and instance method `volume(): number` yields exactly one
constructor descriptor named "new" with two f64 arguments returning `Box`,
and one instance descriptor named `volume` with no arguments returning f64. -/
theorem C5_witness :
    boxClass.name = some "Box" ∧
    getFilePrefix "manifold-encapsulated-types.d.ts" = .ok .Encapsulated ∧
    processClass [] "manifold-encapsulated-types.d.ts" boxClass =
      .ok (some (.extern_block "Box"
        [⟨"new",
          [⟨"width", .primitive .f64, none⟩, ⟨"height", .primitive .f64, none⟩],
          .named "Box", .constructorKind⟩,
         ⟨"volume", [], .primitive .f64, .instanceKind⟩])) :=
  ⟨rfl, rfl,
    C5_encapsulated_class_extern_block [] "manifold-encapsulated-types.d.ts"
      "Box" boxClass rfl rfl⟩

/-! ## Claim C6: homogeneous tuple collapse and the Vec2 alias -/

/-- A nonempty tuple whose lowered elements are all the same primitive
collapses to a fixed-size array of the tuple's length. -/
theorem tupleCollapse_array (es : List RustTypeIR) (q : PrimName)
    (hne : es ≠ []) (hq : ∀ el ∈ es, el = .primitive q) :
    tupleCollapse es = .array (.primitive q) (some es.length) := by
  match es, hne with
  | r0 :: rest, _ =>
    have hr0 : r0 = .primitive q := hq r0 (List.mem_cons_self _ _)
    subst hr0
    rw [tupleCollapse, if_pos]
    simp only [List.all_eq_true]
    intro el hel
    have hel' := hq el hel
    subst hel'
    simp

/-- A tuple whose lowered elements are not all one common primitive stays a
tuple. -/
theorem tupleCollapse_tuple (es : List RustTypeIR)
    (h : ¬ ∃ q, ∀ el ∈ es, el = .primitive q) :
    tupleCollapse es = .tuple es := by
  match es with
  | [] => exact absurd ⟨.i32, by simp⟩ h
  | r0 :: rest =>
    rw [tupleCollapse, if_neg]
    intro hall
    simp only [List.all_eq_true] at hall
    have h0 := hall r0 (List.mem_cons_self _ _)
    cases hr0 : r0 with
    | primitive q =>
      apply h
      refine ⟨q, fun el hel => ?_⟩
      have he := hall el hel
      rw [hr0] at he
      cases el <;> simp_all
    | array e sz => rw [hr0] at h0; simp at h0
    | tuple l => rw [hr0] at h0; simp at h0
    | union l => rw [hr0] at h0; simp at h0
    | named n => rw [hr0] at h0; simp at h0
    | generic b args => rw [hr0] at h0; simp at h0
    | option i => rw [hr0] at h0; simp at h0
    | js_value => rw [hr0] at h0; simp at h0

/-- C6: a tuple type whose elements all lower to one primitive kind becomes a
fixed-size `Array` of the tuple's length; a tuple whose lowered elements are
not all one common primitive stays a `Tuple`; and the `Vec2` alias is emitted
as the hard-coded fixed-size array of two f64 elements. -/
theorem C6_tuple_collapse_and_vec2 (reg : Registry) (elems elems2 : List Ty)
    (text1 text2 path : String) (q : PrimName) (fp : FilePrefix)
    (ta : SrcTypeAliasDecl)
    (hp1 : convertPrimitiveToIR (jsTrim text1) = none)
    (hp2 : convertPrimitiveToIR (jsTrim text2) = none)
    (hne : convertTyList reg elems ≠ [])
    (hq : ∀ el ∈ convertTyList reg elems, el = .primitive q)
    (hhet : ¬ ∃ q2, ∀ el ∈ convertTyList reg elems2, el = .primitive q2)
    (hfp : getFilePrefix path = .ok fp)
    (hv2 : ta.name = "Vec2") :
    convertTypeToRustIR reg (.tupleT elems text1)
        = .array (.primitive q) (some (convertTyList reg elems).length) ∧
    convertTypeToRustIR reg (.tupleT elems2 text2)
        = .tuple (convertTyList reg elems2) ∧
    processTypeAlias reg path ta
        = .ok (.type_alias "Vec2" (.array (.primitive .f64) (some 2))) := by
  refine ⟨?_, ?_, ?_⟩
  · rw [convertTypeToRustIR]
    simp only [Ty.getText]
    rw [hp1]
    exact tupleCollapse_array _ q hne hq
  · rw [convertTypeToRustIR]
    simp only [Ty.getText]
    rw [hp2]
    exact tupleCollapse_tuple _ hhet
  · unfold processTypeAlias
    rw [hfp, except_bind_ok, hv2]
    simp only [if_pos]
    rfl

/-- C6 witness: `[number, number]` collapses to a fixed-size array of two f64
elements, `[number, boolean]` stays a tuple, and the `Vec2` alias of the main
artifact is the hard-coded two-element f64 array. -/
theorem C6_witness :
    convertTypeToRustIR [] (.tupleT [.otherT "number", .otherT "number"]
        "[number, number]") = .array (.primitive .f64) (some 2) ∧
    convertTypeToRustIR [] (.tupleT [.otherT "number", .otherT "boolean"]
        "[number, boolean]") = .tuple [.primitive .f64, .primitive .bool] ∧
    processTypeAlias [] "manifold.d.ts" ⟨"Vec2", none, .otherT "[number, number]"⟩
        = .ok (.type_alias "Vec2" (.array (.primitive .f64) (some 2))) :=
  C6_tuple_collapse_and_vec2 [] [.otherT "number", .otherT "number"]
    [.otherT "number", .otherT "boolean"] "[number, number]" "[number, boolean]"
    "manifold.d.ts" .f64 .Manifold ⟨"Vec2", none, .otherT "[number, number]"⟩
    (by decide) (by decide) (by decide) (by decide)
    (fun hex => by
      obtain ⟨q2, hq2⟩ := hex
      have h1 := hq2 (.primitive .f64) (by decide)
      have h2 := hq2 (.primitive .bool) (by decide)
      rw [← h1] at h2
      exact absurd h2 (by decide))
    rfl rfl

/-! ## Claim C3: the Option collapse is order-independent -/

/-- C3: a two-variant union with one variant lowering to the unit primitive
collapses to `Option` of the other variant, whichever position the absent
variant occupies. -/
theorem C3_option_collapse_order_independent (reg : Registry) (t u : Ty)
    (text1 text2 : String)
    (h1 : convertPrimitiveToIR (jsTrim text1) = none)
    (h2 : convertPrimitiveToIR (jsTrim text2) = none)
    (hr1 : (computeUnionParts (jsTrim text1)).any (fun p => mapHas reg p) = false)
    (hr2 : (computeUnionParts (jsTrim text2)).any (fun p => mapHas reg p) = false)
    (hu : isUnitPrim (convertTypeToRustIR reg u) = true)
    (ht : isUnitPrim (convertTypeToRustIR reg t) = false) :
    convertTypeToRustIR reg (.unionT [t, u] text1)
        = .option (convertTypeToRustIR reg t) ∧
    convertTypeToRustIR reg (.unionT [u, t] text2)
        = .option (convertTypeToRustIR reg t) := by
  constructor
  · rw [convertTypeToRustIR]
    simp only [Ty.getText]
    rw [h1]
    simp only [hr1, Bool.false_eq_true, if_false, convertTyList]
    rw [collapseOptionIR]
    simp only [ht, Bool.false_eq_true, if_false, hu, if_true]
  · rw [convertTypeToRustIR]
    simp only [Ty.getText]
    rw [h2]
    simp only [hr2, Bool.false_eq_true, if_false, convertTyList]
    rw [collapseOptionIR]
    simp only [hu, if_true]

/-- C3 witness: `number | undefined` and `undefined | number` both lower to
`Option` of the f64 primitive. -/
theorem C3_witness :
    convertTypeToRustIR [] (.unionT [.otherT "number", .otherT "undefined"]
        "number | undefined") = .option (.primitive .f64) ∧
    convertTypeToRustIR [] (.unionT [.otherT "undefined", .otherT "number"]
        "undefined | number") = .option (.primitive .f64) :=
  C3_option_collapse_order_independent [] (.otherT "number") (.otherT "undefined")
    "number | undefined" "undefined | number"
    (by decide) (by decide) (by decide) (by decide) (by decide) (by decide)


/-! ## Claim C1: deduplicator canonicity, corrected to multiset equality -/

/-- Re-encountering a permutation of an already-cached variant list leaves
the deduplicator state unchanged (the cache hit takes the `some` branch). -/
theorem getOrCreate_state_of_perm (st : TodoState) (v1 v2 : List RustTypeIR)
    (hperm : v1.Perm v2) :
    (getOrCreateTodoUnionName v2 (getOrCreateTodoUnionName v1 st).2).2
      = (getOrCreateTodoUnionName v1 st).2 := by
  have hsig : variantSignature v2 = variantSignature v1 :=
    variantSignature_eq_of_perm hperm.symm
  simp only [getOrCreateTodoUnionName]
  cases hc : mapGet st.todoUnionCache (variantSignature v1) with
  | some nm => simp only [hsig, hc]
  | none =>
    simp only [hsig, hc]
    simp [mapGet_mapSet_self]

/-- C1 (amended): within one run, two irreducible unions whose variant-IR
lists are equal as multisets (permutations of one another) receive the same
placeholder name from `getOrCreateTodoUnionName`, and a union whose variant
multiset is distinct from both receives a different name.  Set-equality is
not enough: see the recorded counterexample. -/
theorem C1_dedup_names_by_variant_multiset (st : TodoState) (h : TodoWF st)
    (v1 v2 v3 : List RustTypeIR) (h12 : v1.Perm v2) (h13 : ¬ v1.Perm v3) :
    (getOrCreateTodoUnionName v2 (getOrCreateTodoUnionName v1 st).2).1
        = (getOrCreateTodoUnionName v1 st).1 ∧
    (getOrCreateTodoUnionName v3
        (getOrCreateTodoUnionName v2 (getOrCreateTodoUnionName v1 st).2).2).1
        ≠ (getOrCreateTodoUnionName v1 st).1 := by
  refine ⟨getOrCreate_same_of_perm st v1 v2 h12, ?_⟩
  rw [getOrCreate_state_of_perm st v1 v2 h12]
  exact getOrCreate_distinct_of_not_perm st h v1 v3 h13

/-- C1 witness: `A | B` and `B | A` share one placeholder name while the
structurally distinct `C` receives another. -/
theorem C1_witness :
    TodoWF initTodoState ∧
    List.Perm [RustTypeIR.named "A", RustTypeIR.named "B"]
      [RustTypeIR.named "B", RustTypeIR.named "A"] ∧
    ¬ List.Perm [RustTypeIR.named "A", RustTypeIR.named "B"]
      [RustTypeIR.named "C"] ∧
    ((getOrCreateTodoUnionName [RustTypeIR.named "B", RustTypeIR.named "A"]
        (getOrCreateTodoUnionName [RustTypeIR.named "A", RustTypeIR.named "B"]
          initTodoState).2).1
      = (getOrCreateTodoUnionName [RustTypeIR.named "A", RustTypeIR.named "B"]
          initTodoState).1 ∧
     (getOrCreateTodoUnionName [RustTypeIR.named "C"]
        (getOrCreateTodoUnionName [RustTypeIR.named "B", RustTypeIR.named "A"]
          (getOrCreateTodoUnionName [RustTypeIR.named "A", RustTypeIR.named "B"]
            initTodoState).2).2).1
      ≠ (getOrCreateTodoUnionName [RustTypeIR.named "A", RustTypeIR.named "B"]
          initTodoState).1) :=
  ⟨todoWF_init, by decide, by decide,
    C1_dedup_names_by_variant_multiset initTodoState todoWF_init
      [RustTypeIR.named "A", RustTypeIR.named "B"]
      [RustTypeIR.named "B", RustTypeIR.named "A"]
      [RustTypeIR.named "C"] (by decide) (by decide)⟩

/-- C1 counterexample: the deduplicator keys on the sorted list of variant
serializations, a multiset key, so the set-equal variant lists
`[named "A", named "A"]` and `[named "A"]` receive distinct placeholder
names within one run, refuting the claim for set-equality proper. -/
theorem C1_counterexample_set_equality :
    (∀ x : RustTypeIR, x ∈ [RustTypeIR.named "A", RustTypeIR.named "A"] ↔
        x ∈ [RustTypeIR.named "A"]) ∧
    (getOrCreateTodoUnionName [RustTypeIR.named "A"]
        (getOrCreateTodoUnionName [RustTypeIR.named "A", RustTypeIR.named "A"]
          initTodoState).2).1
      ≠ (getOrCreateTodoUnionName [RustTypeIR.named "A", RustTypeIR.named "A"]
          initTodoState).1 := by
  constructor
  · intro x
    simp [List.mem_cons, or_self]
  · decide

/-! ## Claim C2: string-literal unions and the pass-two overwrite -/

/-- C2: `FillRule` is an alias whose right-hand side is a union of two
string-literal types.  Pass one synthesizes and registers the promised enum,
but pass two lowers the same alias again through the generic path and
overwrites the same generated-items key, so the declaration ultimately
emitted for the alias is not an enum — it is a type alias that renders as a
placeholder union, exactly what the claim rules out. -/
theorem C2_string_literal_union_overwritten :
    (∃ nodes text, fillRuleAlias.typeNode = some (.unionNode nodes text) ∧
      (nodes.filterMap isStrLitNode).length = nodes.length ∧
      nodes.length > 1) ∧
    (registerTypeAliases ([], []) fillRuleFile).map (fun acc =>
        (mapGet acc.2 "manifold-global-types.d.ts-FillRule").map RustItem.isEnum)
      = .ok (some true) ∧
    (runTypeGenPasses [fillRuleFile]).map (fun r =>
        (mapGet r.2 "manifold-global-types.d.ts-FillRule").map RustItem.isEnum)
      = .ok (some false) ∧
    (runTypeGenPasses [fillRuleFile]).map (fun r =>
        (mapGet r.2 "manifold-global-types.d.ts-FillRule").map
          (fun item => (rustItemToString item initTodoState).1))
      = .ok (some "pub type FillRule = Todo001Union;\n\n") :=
  ⟨⟨_, _, rfl, rfl, by decide⟩, rfl, rfl, rfl⟩

/-! ## Claim C9: the generated-items store is keyed uniquely, last write wins -/

/-- Splitting a successful `Except` bind into its two successful stages. -/
theorem except_bind_ok_dest {β γ : Type} (x : Except String β)
    (g : β → Except String γ) (c : γ) (h : (x >>= g) = .ok c) :
    ∃ b, x = .ok b ∧ g b = .ok c := by
  cases x with
  | error e => rw [except_bind_error] at h; exact absurd h (by simp)
  | ok b => rw [except_bind_ok] at h; exact ⟨b, rfl, h⟩

/-- An `Except`-valued fold preserves any invariant its step preserves. -/
theorem foldlM_except_inv {α β : Type} (P : β → Prop) (f : β → α → Except String β)
    (hf : ∀ b a b', P b → f b a = .ok b' → P b') (l : List α) :
    ∀ (b b' : β), P b → l.foldlM f b = .ok b' → P b' := by
  induction l with
  | nil =>
    intro b b' hb h
    simp only [List.foldlM_nil] at h
    have h2 := Except.ok.inj h
    rw [← h2]
    exact hb
  | cons a l ih =>
    intro b b' hb h
    rw [List.foldlM_cons] at h
    obtain ⟨b1, hfa, h⟩ := except_bind_ok_dest _ _ _ h
    exact ih b1 b' (hf b a b1 hb hfa) h

/-- `storeOptItem` keeps the generated-items keys duplicate-free. -/
theorem storeOptItem_keys_nodup (sf : SrcFile) (items : Store) (r : Option RustItem)
    (hb : (items.map Prod.fst).Nodup) :
    ((storeOptItem sf items r).map Prod.fst).Nodup := by
  cases r with
  | none => exact hb
  | some item => exact mapSet_keys_nodup items _ item hb

/-- The store registration step of each second-pass fold preserves
duplicate-freeness of the keys. -/
theorem bindStore_keys_nodup {γ : Type} (sf : SrcFile) (acc : Store)
    {r : Except String γ} {f : γ → Option RustItem} (acc' : Store)
    (hb : (acc.map Prod.fst).Nodup)
    (h : (r >>= fun x => pure (storeOptItem sf acc (f x))) = .ok acc') :
    (acc'.map Prod.fst).Nodup := by
  obtain ⟨b, hx, h⟩ := except_bind_ok_dest _ _ _ h
  have h2 := Except.ok.inj h
  rw [← h2]
  exact storeOptItem_keys_nodup sf acc (f b) hb

/-- `createEnumFromStringLiterals` keeps the generated-items keys
duplicate-free. -/
theorem createEnum_keys_nodup (sf : SrcFile) (name : String) (lits : List String)
    (items items' : Store) (hb : (items.map Prod.fst).Nodup)
    (h : createEnumFromStringLiterals sf name lits items = .ok items') :
    (items'.map Prod.fst).Nodup := by
  unfold createEnumFromStringLiterals at h
  obtain ⟨fp, hfp, h⟩ := except_bind_ok_dest _ _ _ h
  have h2 := Except.ok.inj h
  rw [← h2]
  exact mapSet_keys_nodup items _ _ hb

/-- One alias-registration step of pass one preserves duplicate-freeness of
the generated-items keys. -/
theorem registerOneTypeAlias_keys_nodup (sf : SrcFile) (acc acc' : Registry × Store)
    (a : SrcTypeAliasDecl) (hb : (acc.2.map Prod.fst).Nodup)
    (h : registerOneTypeAlias sf acc a = .ok acc') :
    (acc'.2.map Prod.fst).Nodup := by
  obtain ⟨aname, anode, atype⟩ := a
  cases anode with
  | none =>
    simp only [registerOneTypeAlias] at h
    have h2 := Except.ok.inj h
    rw [← h2]
    exact hb
  | some node =>
    cases ht : (node.getText == "") with
    | true =>
      simp only [registerOneTypeAlias, ht, if_true] at h
      have h2 := Except.ok.inj h
      rw [← h2]
      exact hb
    | false =>
      cases node with
      | unionNode unionTypes text =>
        simp only [registerOneTypeAlias, TypeNode.getText] at h ht
        rw [ht] at h
        simp only [Bool.false_eq_true, if_false] at h
        by_cases hcond : ((unionTypes.filterMap isStrLitNode).length
            == unionTypes.length) = true ∧
            (unionTypes.filterMap isStrLitNode).length > 1
        · rw [if_pos hcond] at h
          obtain ⟨items2, hce, h⟩ := except_bind_ok_dest _ _ _ h
          have h2 := Except.ok.inj h
          rw [← h2]
          exact createEnum_keys_nodup sf aname _ acc.2 items2 hb hce
        · rw [if_neg hcond] at h
          have h2 := Except.ok.inj h
          rw [← h2]
          exact hb
      | strLitNode v text =>
        simp only [registerOneTypeAlias, TypeNode.getText] at h ht
        rw [ht] at h
        simp only [Bool.false_eq_true, if_false] at h
        have h2 := Except.ok.inj h
        rw [← h2]
        exact hb
      | otherNode text =>
        simp only [registerOneTypeAlias, TypeNode.getText] at h ht
        rw [ht] at h
        simp only [Bool.false_eq_true, if_false] at h
        have h2 := Except.ok.inj h
        rw [← h2]
        exact hb

/-- Pass one preserves duplicate-freeness of the generated-items keys. -/
theorem registerTypeAliases_keys_nodup (acc acc' : Registry × Store) (sf : SrcFile)
    (hb : (acc.2.map Prod.fst).Nodup)
    (h : registerTypeAliases acc sf = .ok acc') :
    (acc'.2.map Prod.fst).Nodup := by
  unfold registerTypeAliases at h
  exact foldlM_except_inv (fun b : Registry × Store => (b.2.map Prod.fst).Nodup) _
    (fun b a b' hb2 hstep => registerOneTypeAlias_keys_nodup sf b b' a hb2 hstep)
    sf.typeAliases acc acc' hb h

/-- One file of pass two preserves duplicate-freeness of the
generated-items keys. -/
theorem processFileDecls_keys_nodup (reg : Registry) (sf : SrcFile)
    (items items' : Store) (hb : (items.map Prod.fst).Nodup)
    (h : processFileDecls reg sf items = .ok items') :
    (items'.map Prod.fst).Nodup := by
  unfold processFileDecls at h
  obtain ⟨i1, h1, h⟩ := except_bind_ok_dest _ _ _ h
  obtain ⟨i2, h2, h⟩ := except_bind_ok_dest _ _ _ h
  obtain ⟨i3, h3, h⟩ := except_bind_ok_dest _ _ _ h
  obtain ⟨i4, h4, h⟩ := except_bind_ok_dest _ _ _ h
  have hi1 : (i1.map Prod.fst).Nodup :=
    foldlM_except_inv (fun s : Store => (s.map Prod.fst).Nodup) _
      (fun b a b' hb2 hstep => bindStore_keys_nodup sf b b' hb2 hstep)
      sf.interfaces items i1 hb h1
  have hi2 : (i2.map Prod.fst).Nodup :=
    foldlM_except_inv (fun s : Store => (s.map Prod.fst).Nodup) _
      (fun b a b' hb2 hstep => bindStore_keys_nodup sf b b' hb2 hstep)
      sf.typeAliases i1 i2 hi1 h2
  have hi3 : (i3.map Prod.fst).Nodup :=
    foldlM_except_inv (fun s : Store => (s.map Prod.fst).Nodup) _
      (fun b a b' hb2 hstep => bindStore_keys_nodup sf b b' hb2 hstep)
      sf.classes i2 i3 hi2 h3
  have hi4 : (i4.map Prod.fst).Nodup :=
    foldlM_except_inv (fun s : Store => (s.map Prod.fst).Nodup) _
      (fun b a b' hb2 hstep => bindStore_keys_nodup sf b b' hb2 hstep)
      sf.enums i3 i4 hi3 h4
  have h2' := Except.ok.inj h
  rw [← h2']
  exact hi4

/-- C9: over any run of the two-pass pipeline, the generated-items store maps
each `artifact-name` key to at most one declaration (its key list is
duplicate-free), and registering under an already-present key replaces the
stored declaration in place, without an error, leaving other keys
untouched. -/
theorem C9_store_key_unique (files : List SrcFile) (reg : Registry) (store : Store)
    (h : runTypeGenPasses files = .ok (reg, store)) :
    (store.map Prod.fst).Nodup ∧
    (∀ (m : Store) (k : String) (it : RustItem),
      mapGet (mapSet m k it) k = some it) ∧
    (∀ (m : Store) (k k2 : String) (it : RustItem), k2 ≠ k →
      mapGet (mapSet m k it) k2 = mapGet m k2) := by
  refine ⟨?_, fun m k it => mapGet_mapSet_self m k it,
    fun m k k2 it hne => mapGet_mapSet_other m k k2 it hne⟩
  unfold runTypeGenPasses at h
  obtain ⟨p1, h1, h⟩ := except_bind_ok_dest _ _ _ h
  obtain ⟨st2, h2, h⟩ := except_bind_ok_dest _ _ _ h
  have hinit : ((([] : Store)).map Prod.fst).Nodup := List.nodup_nil
  have hp1 : (p1.2.map Prod.fst).Nodup :=
    foldlM_except_inv (fun b : Registry × Store => (b.2.map Prod.fst).Nodup) _
      (fun b a b' hb2 hstep => registerTypeAliases_keys_nodup b b' a hb2 hstep)
      files ([], []) p1 hinit h1
  have hst2 : (st2.map Prod.fst).Nodup :=
    foldlM_except_inv (fun s : Store => (s.map Prod.fst).Nodup) _
      (fun b a b' hb2 hstep => processFileDecls_keys_nodup p1.1 a b b' hb2 hstep)
      files p1.2 st2 hp1 h2
  have h3 := Except.ok.inj h
  have h4 : st2 = store := congrArg Prod.snd h3
  rw [← h4]
  exact hst2

/-- C9 witness: running the pipeline on a file declaring two aliases of the
same name yields a store with duplicate-free keys, and re-registering a
present key replaces its declaration. -/
theorem C9_witness :
    ∃ pr : Registry × Store, runTypeGenPasses [c9File] = .ok pr ∧
      (pr.2.map Prod.fst).Nodup ∧
      mapGet (mapSet ([("manifold.d.ts-A",
          RustItem.type_alias "A" (.primitive .f64))] : Store) "manifold.d.ts-A"
          (RustItem.type_alias "A" (.primitive .str))) "manifold.d.ts-A"
        = some (RustItem.type_alias "A" (.primitive .str)) := by
  obtain ⟨pr, hpr⟩ : ∃ pr, runTypeGenPasses [c9File] = .ok pr := ⟨_, rfl⟩
  have hthm := C9_store_key_unique [c9File] pr.1 pr.2 hpr
  exact ⟨pr, hpr, hthm.1, hthm.2.1 _ _ _⟩


end TypeGen
